import Mathlib

/-!
# Verification of the mini-fedi reaction enrichment pipeline

A shallow embedding of `functions/api/home.ts` (the Misskey-reaction
enrichment pipeline merged into the Mastodon home timeline) together with
theorems checking the specification claims against it.

Modelling conventions:
* JS strings are Lean `String`s (which are lists of `Char`); the JS string
  operations used by the source (`trim`, `toLowerCase`, `replace` of anchored
  colons, `split("@")`, `includes(":")`) are re-implemented over `List Char`.
  `toLowerCase` is modelled for the ASCII range (the only range the source
  relies on for hosts and emoji shortcodes).
* Network and cache effects are modelled by a `World` of oracles giving the
  outcome of each outbound helper (`/api/ap/show`, `/api/notes/show`,
  `/api/meta`, the public emoji-path probe) and a trace of `NetEvent`s that
  records, in order, which helpers dispatched a lookup.  A throwing fetch is
  an `Except.error`.
* The per-request cooperative concurrency is modelled by processing the jobs
  sequentially: each job touches only its own post, and the shared
  page-level counters are sums, so any interleaving produces the same
  per-post results and totals.  The admission gate itself (`limiter`) is
  modelled separately as a labelled transition system.
* Wall-clock time is a parameter: each job receives the elapsed time at its
  two budget checks, and the wall-clock header value is a parameter.
-/

namespace MiniFedi

/-! ## JS string primitives -/

/-- JS truthiness for a nullable string: `null`/`undefined`/`""` are falsy. -/
def strTruthy (s : String) : Option String := if s = "" then none else some s

/-- `a || b` where the left operand is a nullable string and the right is
returned as-is when the left is falsy. -/
def jsOr (a b : Option String) : Option String :=
  match a.bind strTruthy with
  | some s => some s
  | none => b

/-- `a || b` for two nullable object-like values (objects are always truthy). -/
def jsOrOpt {α : Type} (a b : Option α) : Option α :=
  match a with
  | some x => some x
  | none => b

/-- One character of `String.prototype.toLowerCase`, ASCII range. -/
def lowerChar (c : Char) : Char := Char.toLower c

/-- `s.toLowerCase()` (ASCII). -/
def toLowerStr (s : String) : String := ⟨s.toList.map lowerChar⟩

/-- Whitespace test used to model `String.prototype.trim`. -/
def isSpaceChar (c : Char) : Bool := c.isWhitespace

/-- `s.trim()` on the character list. -/
def trimChars (l : List Char) : List Char :=
  ((l.dropWhile isSpaceChar).reverse.dropWhile isSpaceChar).reverse

/-- `s.trim()`. -/
def trimStr (s : String) : String := ⟨trimChars s.toList⟩

/-- Drop a single leading colon, as `replace(/^:/, "")`. -/
def dropLeadColon : List Char → List Char
  | [] => []
  | c :: t => if c = ':' then t else c :: t

/-- `key.replace(/^:/, "").replace(/:$/, "")`, which also models
`replace(/^:|:$/g, "")`: one leading and one trailing colon are removed. -/
def stripColonsChars (l : List Char) : List Char :=
  ((dropLeadColon l).reverse |> dropLeadColon).reverse

/-- `normalizeName` from the source:
`String(s || "").replace(/^:|:$/g, "").trim().toLowerCase()`. -/
def normalizeName (s : String) : String :=
  toLowerStr (trimStr ⟨stripColonsChars s.toList⟩)

/-- `normalizeHost` from the source: `(h || "").trim().toLowerCase() || null`. -/
def normalizeHost (h : Option String) : Option String :=
  let t := toLowerStr (trimStr (h.getD ""))
  if t = "" then none else some t

/-- `base.replace(/a/g, b)` for single characters. -/
def replaceAllChar (a b : Char) (s : String) : String :=
  ⟨s.toList.map (fun c => if c = a then b else c)⟩

/-- `variantsOfName` from the source: the normalized name plus its
hyphen/underscore spelling variants, de-duplicated preserving first
occurrence (like `Array.from(new Set([...]))`). -/
def variantsOfName (n : String) : List String :=
  let base := normalizeName n
  let u := replaceAllChar '-' '_' base
  let h := replaceAllChar '_' '-' base
  [base] ++ (if u = base then [] else [u]) ++ (if h = base ∨ h = u then [] else [h])

/-- `key.includes(":")`. -/
def containsChar (s : String) (c : Char) : Bool := s.toList.contains c

/-- Does the character list begin with the given pattern? -/
def charsBegin : List Char → List Char → Bool
  | _, [] => true
  | [], _ :: _ => false
  | a :: as, b :: bs => a = b ∧ charsBegin as bs

/-- `s.startsWith(pat)` over the character model. -/
def strBegins (s pat : String) : Bool := charsBegin s.toList pat.toList

/-- `s.endsWith(pat)` over the character model. -/
def strEnds (s pat : String) : Bool := charsBegin s.toList.reverse pat.toList.reverse

/-- Split a character list at every occurrence of `c`, like `split("@")`. -/
def splitChar (c : Char) : List Char → List (List Char)
  | [] => [[]]
  | a :: as =>
    let r := splitChar c as
    if a = c then [] :: r
    else
      match r with
      | h :: t => (a :: h) :: t
      | [] => [[a]]

/-- `s.split("@")` (single-character separator). -/
def splitStr (c : Char) (s : String) : List String :=
  (splitChar c s.toList).map (fun l => ⟨l⟩)

/-- Decimal digit parser used to model `Number(...)` on the numeric query
parameters the handler actually receives. -/
def digitVal (c : Char) : Option Nat :=
  if 48 ≤ c.toNat ∧ c.toNat ≤ 57 then some (c.toNat - 48) else none

/-- `Number(s)` restricted to plain decimal naturals; any other input is
modelled as `none` (the real `Number` yields `NaN` there, which the handler
then treats as falsy/`0` at every use site). -/
def jsNat (s : String) : Option Nat :=
  match s.toList with
  | [] => none
  | l => l.foldl (fun acc c =>
      match acc, digitVal c with
      | some n, some d => some (n * 10 + d)
      | _, _ => none) (some 0)

/-! ## Host metadata (`buildMetaIndex` and the lookup helpers) -/

/-- An entry of the alias table `_aliasByKey`: either a custom-emoji
reference (name plus optional remote host) or a literal unicode glyph. -/
inductive AliasVal
  | custom (name : String) (host : Option String)
  | unicode (char : String)
deriving DecidableEq, Repr

/-- Indexed host metadata, i.e. the result of `buildMetaIndex`: the
`_emojiByName` and `_aliasByKey` maps.  JS `Map.set` replaces previous
bindings, which the association lists model by prepending: lookups take the
first (most recently set) binding. -/
structure Meta where
  emojiByName : List (String × String)
  aliasByKey : List (String × AliasVal)
deriving DecidableEq, Repr

/-- `Map.get` on the association-list model. -/
def assocGet {α : Type} (m : List (String × α)) (k : String) : Option α :=
  (m.find? (fun p => p.1 = k)).map (fun p => p.2)

/-- One element of a raw `/api/meta` custom-emoji list. -/
structure RawEmoji where
  name : String
  url : Option String
  uri : Option String
  publicUrl : Option String
deriving DecidableEq, Repr

/-- The raw `/api/meta` payload fields that `buildMetaIndex` reads.  The
three alias-table candidates correspond to `meta.reactionEmojis`,
`meta.reactions` and `meta.reactionsConfig.reactions`; only string-valued
entries are modelled since the source skips every non-string value. -/
structure RawMeta where
  emojis : Option (List RawEmoji)
  reactionEmojis : Option (List (String × String))
  reactions : Option (List (String × String))
  reactionsConfigReactions : Option (List (String × String))
deriving DecidableEq, Repr

/-- `e?.url || e?.uri || e?.publicUrl || null`. -/
def emojiEntryUrl (e : RawEmoji) : Option String :=
  jsOr e.url (jsOr e.uri (e.publicUrl.bind strTruthy))

/-- The emoji name→URL index: every spelling variant of each emoji name is
mapped to its URL; entries lacking a truthy name or URL are skipped. -/
def buildEmojiByName (es : List RawEmoji) : List (String × String) :=
  es.foldl (fun acc e =>
    match emojiEntryUrl e, strTruthy e.name with
    | some url, some name => (variantsOfName name).foldl (fun m v => (v, url) :: m) acc
    | _, _ => acc) []

/-- The first object-valued alias table among the known field names. -/
def aliasSource (r : RawMeta) : Option (List (String × String)) :=
  jsOrOpt r.reactionEmojis (jsOrOpt r.reactions r.reactionsConfigReactions)

/-- Classify one alias value: a trimmed value of shape `":name@host:"`
(tested by `/^:.*:$/`, i.e. at least two characters wrapped in colons)
becomes a custom reference, anything else a literal unicode glyph. -/
def aliasEntry (s : String) : AliasVal :=
  let t := trimStr s
  if 2 ≤ t.length ∧ strBegins t ":" ∧ strEnds t ":" then
    let body : String := ⟨(t.toList.drop 1).dropLast⟩
    let parts := splitStr '@' body
    .custom (normalizeName (parts.headD "")) (normalizeHost ((parts.drop 1).head?))
  else .unicode t

/-- The alias key→value index: every spelling variant of each alias key is
mapped to its classified value. -/
def buildAliasByKey (src : List (String × String)) : List (String × AliasVal) :=
  src.foldl (fun acc kv =>
    (variantsOfName kv.1).foldl (fun m v => (v, aliasEntry kv.2) :: m) acc) []

/-- `buildMetaIndex` from the source. -/
def buildMetaIndex (r : RawMeta) : Meta :=
  { emojiByName := buildEmojiByName (r.emojis.getD [])
    aliasByKey :=
      match aliasSource r with
      | some src => buildAliasByKey src
      | none => [] }

/-- `resolveEmojiUrlFromMeta`: first truthy URL among the name's spelling
variants in the `_emojiByName` index. -/
def resolveEmojiUrlFromMeta (m : Meta) (name : String) : Option String :=
  (variantsOfName name).findSome? (fun v => (assocGet m.emojiByName v).bind strTruthy)

/-- `resolveAliasFromMeta`: first hit among the key's spelling variants in
the `_aliasByKey` index. -/
def resolveAliasFromMeta (m : Meta) (keyNorm : String) : Option AliasVal :=
  (variantsOfName keyNorm).findSome? (fun v => assocGet m.aliasByKey v)

/-! ## Origin note objects and the AP tag lookup -/

/-- One entry of a note's AP `tag` array, restricted to the fields the
resolver reads.  `iconUrl` models `t?.icon?.url || t?.icon?.href || t?.icon`
when that chain produces a string. -/
structure ApTag where
  type : String
  name : Option String
  iconUrl : Option String
deriving DecidableEq, Repr

/-- The note-object fields the pipeline reads: the two possible raw
reaction count maps and the embedded AP tag list.  Reaction counts are
naturals; a zero count is the falsy case of `if (!count)`. -/
structure NoteObj where
  reactions : Option (List (String × Nat))
  reactionCounts : Option (List (String × Nat))
  tag : List ApTag
deriving DecidableEq, Repr

/-- `resolveEmojiUrlFromApTag` applied to an already-unwrapped note object
(at its call site `obj` is `apRes.data?.object || apRes.data`, so the
function's own wrapper handling does not arise): the first `Emoji` tag whose
colon-stripped name matches yields its string icon URL. -/
def resolveEmojiUrlFromApTag (obj : NoteObj) (name : String) : Option String :=
  obj.tag.findSome? (fun t =>
    let tname : String := match t.name with
      | some s => ⟨stripColonsChars s.toList⟩
      | none => ""
    if t.type = "Emoji" ∧ normalizeName tname = normalizeName name then
      t.iconUrl.bind strTruthy
    else none)

/-! ## Reaction key parsing -/

/-- Syntactic classification of a raw reaction key. -/
inductive RKind
  | unicode
  | custom
deriving DecidableEq, Repr

/-- The result of `parseMkReactionKey`. -/
structure KeyInfo where
  kind : RKind
  name : String
  host : Option String
deriving DecidableEq, Repr

/-- `parseMkReactionKey`: a key without any colon is a unicode glyph;
otherwise the colons are stripped, the key is split at `@`, and the parts
become a custom name and optional host. -/
def parseMkReactionKey (key : String) : KeyInfo :=
  if containsChar key ':' = false then
    { kind := .unicode, name := normalizeName key, host := none }
  else
    let trimmed : String := ⟨stripColonsChars key.toList⟩
    let parts := splitStr '@' trimmed
    { kind := .custom
      name := normalizeName (parts.headD "")
      host := normalizeHost ((parts.drop 1).head?) }

/-! ## URL parsing (`new URL`) and note-id extraction

The WHATWG `URL` parser is modelled for http(s) URLs: after `scheme://`,
any further `/` or `\` characters are skipped before the authority starts
(the parser's "special authority ignore slashes" leniency, under which
`http:///x` parses with host `x`); the authority then runs to the first
`/`, `\`, `?` or `#`; the host is the authority part after the last `@`
(user info dropped, port kept, ASCII-lowercased by the parser as `URL`
itself lowercases hosts); the pathname runs from its leading `/` or `\` to
the first `?` or `#`, with backslashes serialized as slashes, defaulting
to `/`.  An http(s) URL whose host comes out empty (e.g. `http://`, or
nothing but slashes, or only user info before `@`) makes `new URL` throw,
modelled as `none`.  Forbidden host code points, percent-decoding and
dot-segment normalization are not modelled (no claim depends on them). -/

/-- Split at the first character satisfying `p`: `(before, from-it-on)`. -/
def spanUntil (p : Char → Bool) : List Char → List Char × List Char
  | [] => ([], [])
  | a :: as =>
    if p a then ([], a :: as)
    else
      let r := spanUntil p as
      (a :: r.1, r.2)

/-- `/^https?:\/\//i`. -/
def isHttpUri (s : String) : Bool :=
  strBegins (toLowerStr s) "http://" ∨ strBegins (toLowerStr s) "https://"

/-- Drop the `user:pass@` prefix of an authority (everything up to the last
`@`). -/
def dropUserInfo (l : List Char) : List Char :=
  ((spanUntil (fun c => c = '@') l.reverse).1).reverse

/-- `new URL(s)` for http(s) URLs, returning `(host, pathname)` with the
host lowercased, or `none` when the parser would throw: extra `/` and `\`
after the scheme are skipped as WHATWG's special-authority handling does,
and only an empty host (after dropping user info) is a parse failure. -/
def parseHttpUrl (s : String) : Option (String × String) :=
  let l := s.toList
  let low := toLowerStr s
  let afterScheme : Option (List Char) :=
    if strBegins low "https://" then some (l.drop 8)
    else if strBegins low "http://" then some (l.drop 7)
    else none
  match afterScheme with
  | none => none
  | some rest0 =>
    let rest := rest0.dropWhile (fun c => c = '/' ∨ c = '\\')
    let (auth, tail) := spanUntil (fun c => c = '/' ∨ c = '\\' ∨ c = '?' ∨ c = '#') rest
    let host := dropUserInfo auth
    if host = [] then none
    else
      let path :=
        match tail with
        | c :: _ =>
          if c = '?' ∨ c = '#' then ['/']
          else ((spanUntil (fun c2 => c2 = '?' ∨ c2 = '#') tail).1).map
            (fun c2 => if c2 = '\\' then '/' else c2)
        | [] => ['/']
      some (toLowerStr ⟨host⟩, ⟨path⟩)

/-- `/^\/notes\/([a-zA-Z0-9]+)/` on a pathname: the maximal leading
alphanumeric run after `/notes/`, if nonempty. -/
def noteIdOfPath (p : String) : Option String :=
  if strBegins p "/notes/" then
    let rest := p.toList.drop 7
    let id := rest.takeWhile (fun c => c.isAlphanum)
    if id = [] then none else some ⟨id⟩
  else none

/-- `extractMisskeyNoteIdFromApUri`: parse the URI (its own `try/catch`
makes a parse failure `null`) and match the note-id shape on the path. -/
def extractMisskeyNoteIdFromApUri (apUri : String) : Option String :=
  match parseHttpUrl apUri with
  | none => none
  | some hp => noteIdOfPath hp.2

/-! ## The effect world and the network helpers

Oracles give the outcome of each outbound helper.  The in-process metadata
cache (`metaMem`) is a separate oracle from the full `getMisskeyMeta` chain
(`metaOf`), because the per-job lookup at `metaMem.get(job.host)` consults
only the memory tier while `getEmojiUrlFromHost` runs the full
memory→KV→network chain.  `NetEvent`s record each helper dispatching a
lookup; in the counterexample worlds the caches are empty, so an event is an
actual network call. -/

/-- `apRes.data` when `/api/ap/show` returned a JSON object: the optional
`object` wrapper and the payload itself viewed as a note object
(`data?.object || data`). -/
structure ApShowData where
  object : Option NoteObj
  self : NoteObj
deriving DecidableEq, Repr

/-- A network event: one helper dispatched a lookup. -/
inductive NetEvent
  | apShow (host uri : String)
  | notesShow (host noteId : String)
  | metaFetch (host : String)
  | probe (host name : String)
deriving DecidableEq, Repr

/-- The oracle world.  `apShowFetch`/`notesShowFetch` give the raw fetch
outcome `(status, parsed body)` or a thrown error; the helpers below apply
the source's `res.ok` handling on top.  `metaOf` is the outcome of
`getMisskeyMeta` (memory/KV/network read-through); `metaMem` is the
in-process tier alone; `probe` is the outcome of the public-path probe
(never the empty string, since the probe only yields candidate URLs). -/
structure World where
  apShowFetch : String → String → Except Unit (Nat × Option ApShowData)
  notesShowFetch : String → String → Except Unit (Nat × Option NoteObj)
  metaMem : String → Option Meta
  metaOf : String → Option Meta
  probe : String → String → Option String

/-- `getApShow`: a non-2xx response yields `(status, null)`, a 2xx response
yields `(200, data)` (the KV cache path also reports `200`); a thrown fetch
propagates. -/
def getApShowM (w : World) (host uri : String) :
    Except Unit (Nat × Option ApShowData) × List NetEvent :=
  (match w.apShowFetch host uri with
   | .error e => .error e
   | .ok sd =>
     if 200 ≤ sd.1 ∧ sd.1 ≤ 299 then .ok (200, sd.2) else .ok (sd.1, none),
   [.apShow host uri])

/-- `getNotesShow`: same `res.ok` handling as `getApShow`. -/
def getNotesShowM (w : World) (host noteId : String) :
    Except Unit (Nat × Option NoteObj) × List NetEvent :=
  (match w.notesShowFetch host noteId with
   | .error e => .error e
   | .ok sd =>
     if 200 ≤ sd.1 ∧ sd.1 ≤ 299 then .ok (200, sd.2) else .ok (sd.1, none),
   [.notesShow host noteId])

/-- `probeEmojiUrl`: host and name are trimmed and lowercased; an empty
host or name short-circuits to `null` without any lookup.  The candidate
path iteration, image content-type check and KV positive/negative caching
are inside the `probe` oracle. -/
def probeEmojiUrlM (w : World) (host0 name0 : String) :
    Option String × List NetEvent :=
  let host := toLowerStr (trimStr host0)
  let name := toLowerStr (trimStr name0)
  if host = "" ∨ name = "" then (none, [])
  else ((w.probe host name).bind strTruthy, [.probe host name])

/-- `getEmojiUrlFromHost`: the host's own metadata first (`getMisskeyMeta`,
errors swallowed to `null`), then immediately the public-path probe. -/
def getEmojiUrlFromHost (w : World) (host0 name0 : String) :
    Option String × List NetEvent :=
  let host := (normalizeHost (some host0)).getD ""
  let name := normalizeName name0
  let byMeta := (w.metaOf host).bind (fun m => resolveEmojiUrlFromMeta m name)
  match byMeta with
  | some u => (some u, [.metaFetch host])
  | none =>
    let pr := probeEmojiUrlM w host name
    (pr.1, .metaFetch host :: pr.2)

/-! ## The custom-branch URL resolution chain -/

/-- Which tier produced the URL (the `step.urlFrom` trace value). -/
inductive UrlFrom
  | viaMeta
  | viaRemoteMeta (host : String)
  | viaApTag
  | viaProbe (host : String)
  | viaNone
deriving DecidableEq, Repr

/-- Tiers (c) and (d) of the chain: the AP tag list, then the public-path
probe against the alias-specified host or else the origin host. -/
def resolveTagThenProbe (w : World) (altHost : Option String) (obj : NoteObj)
    (jobHost name : String) (evs : List NetEvent) :
    Option String × UrlFrom × List NetEvent :=
  match resolveEmojiUrlFromApTag obj name with
  | some u => (some u, .viaApTag, evs)
  | none =>
    let probeHost := (normalizeHost altHost).getD jobHost
    let pr := probeEmojiUrlM w probeHost name
    match pr.1 with
    | some u => (some u, .viaProbe probeHost, evs ++ pr.2)
    | none => (none, .viaNone, evs ++ pr.2)

/-- The custom-branch URL resolution exactly as the job loop performs it:
(1) the origin host's metadata table; (2) when an alternate host was given,
`getEmojiUrlFromHost` on it — which itself falls through from that host's
metadata to a public-path probe; (3) the origin note's AP tag list; (4) a
public-path probe against the alias host or the origin host. -/
def resolveCustomUrl (w : World) (meta : Option Meta) (altHost : Option String)
    (obj : NoteObj) (jobHost name : String) :
    Option String × UrlFrom × List NetEvent :=
  match meta.bind (fun m => resolveEmojiUrlFromMeta m name) with
  | some u => (some u, .viaMeta, [])
  | none =>
    match altHost with
    | some h0 =>
      let h := (normalizeHost (some h0)).getD ""
      let r := getEmojiUrlFromHost w h name
      match r.1 with
      | some u => (some u, .viaRemoteMeta h, r.2)
      | none => resolveTagThenProbe w altHost obj jobHost name r.2
    | none => resolveTagThenProbe w altHost obj jobHost name []

/-! ## Descriptors, counters and per-key processing -/

/-- An emitted reaction descriptor (the objects pushed into `out`): display
name, resolved image URL (null for glyphs), count, the `char` field set only
by the two unicode branches, and the source host. -/
structure MkRx where
  name : String
  url : Option String
  count : Nat
  char : Option String
  host : Option String
deriving DecidableEq, Repr

/-- The page-level debug counters surfaced in `x-mk-merge-counters`. -/
structure Counters where
  alias_hits : Nat
  meta_hits : Nat
  remote_hits : Nat
  tag_hits : Nat
  unicode_pass : Nat
  custom_without_url : Nat
deriving DecidableEq, Repr

def Counters.zero : Counters := ⟨0, 0, 0, 0, 0, 0⟩

def Counters.add (a b : Counters) : Counters :=
  ⟨a.alias_hits + b.alias_hits, a.meta_hits + b.meta_hits,
   a.remote_hits + b.remote_hits, a.tag_hits + b.tag_hits,
   a.unicode_pass + b.unicode_pass, a.custom_without_url + b.custom_without_url⟩

/-- Counter increments for one custom-branch resolution (a probe hit is
counted as a remote hit, as the source comments note). -/
def countersOfFrom (aliasHits : Nat) (f : UrlFrom) : Counters :=
  { alias_hits := aliasHits
    meta_hits := if f = .viaMeta then 1 else 0
    remote_hits :=
      match f with
      | .viaRemoteMeta _ => 1
      | .viaProbe _ => 1
      | _ => 0
    tag_hits := if f = .viaApTag then 1 else 0
    unicode_pass := 0
    custom_without_url := if f = .viaNone then 1 else 0 }

/-- The `itemHost` decision: the alternate host that served the URL, else
the URL's own host (origin host when the URL does not parse), else the
alias/key host, else the origin host. -/
def itemHostOf (f : UrlFrom) (urlHit : Option String) (altHost : Option String)
    (jobHost : String) : Option String :=
  match f with
  | .viaRemoteMeta h => some h
  | _ =>
    match urlHit with
    | some u =>
      some (match parseHttpUrl u with
            | some hp => toLowerStr hp.1
            | none => toLowerStr jobHost)
    | none =>
      match altHost with
      | some h => normalizeHost (some h)
      | none => some (toLowerStr jobHost)

/-- The custom branch: resolve the URL through the four tiers and emit the
descriptor.  `url` is `urlHit` directly since no tier can produce the empty
string (each filters falsy values), making `urlHit || null` the identity. -/
def processCustom (w : World) (meta : Option Meta) (obj : NoteObj) (jobHost : String)
    (count : Nat) (kindInfo : KeyInfo) (aliasHits : Nat) :
    Option MkRx × Counters × List NetEvent :=
  let name := normalizeName kindInfo.name
  let r := resolveCustomUrl w meta kindInfo.host obj jobHost name
  (some ⟨name, r.1, count, none, itemHostOf r.2.1 r.1 kindInfo.host jobHost⟩,
   countersOfFrom aliasHits r.2.1, r.2.2)

/-- Processing of a single raw reaction key with its count (one iteration
of the `for (const rawKey of Object.keys(reactions))` loop): drop zero
counts unless forced; alias lookup first (a unicode alias emits
immediately, a custom alias overrides the parsed kind); a colon-free key
with a metadata emoji match is reclassified custom; unicode keys pass
through; custom keys run the URL resolution chain. -/
def processKey (w : World) (meta : Option Meta) (obj : NoteObj) (jobHost : String)
    (force : Bool) (rawKey : String) (count : Nat) :
    Option MkRx × Counters × List NetEvent :=
  if count = 0 ∧ force = false then (none, .zero, [])
  else
    let keyNorm := normalizeName rawKey
    let kindInfo0 := parseMkReactionKey rawKey
    match meta.bind (fun m => resolveAliasFromMeta m keyNorm) with
    | some (.unicode ch) =>
      (some ⟨ch, none, count, some ch, none⟩,
       { Counters.zero with alias_hits := 1, unicode_pass := 1 }, [])
    | some (.custom n h) =>
      processCustom w meta obj jobHost count
        { kind := .custom, name := normalizeName n
          host := jsOrOpt (normalizeHost h) kindInfo0.host } 1
    | none =>
      let kindInfo :=
        if kindInfo0.kind = .unicode ∧
            (meta.bind (fun m => resolveEmojiUrlFromMeta m keyNorm)).isSome then
          { kind := RKind.custom, name := keyNorm, host := none }
        else kindInfo0
      if kindInfo.kind = .unicode then
        (some ⟨kindInfo.name, none, count, some kindInfo.name, none⟩,
         { Counters.zero with unicode_pass := 1 }, [])
      else processCustom w meta obj jobHost count kindInfo 0

/-- The whole reaction loop over the raw count map (in `Object.keys`
order, modelled by the list order). -/
def processReactions (w : World) (meta : Option Meta) (obj : NoteObj) (jobHost : String)
    (force : Bool) : List (String × Nat) → List MkRx × Counters × List NetEvent
  | [] => ([], .zero, [])
  | kc :: rest =>
    let r := processKey w meta obj jobHost force kc.1 kc.2
    let rr := processReactions w meta obj jobHost force rest
    ((match r.1 with
      | some d => d :: rr.1
      | none => rr.1),
     r.2.1.add rr.2.1, r.2.2 ++ rr.2.2)

/-! ## Posts, jobs and the per-job pipeline -/

/-- A timeline post, restricted to the fields the pipeline reads and
writes.  `uri`/`reblogUri` model `st.uri` and `st.reblog?.uri`; the three
`mk` fields are the enrichment slots (`_mkReactions`, `_mkHost`,
`_mkDebug`), absent on input.  Of `_mkDebug` only the `stage` string is
modelled. -/
structure Post where
  id : String
  uri : Option String
  reblogUri : Option String
  mkReactions : Option (List MkRx) := none
  mkHost : Option String := none
  mkDebug : Option String := none
deriving DecidableEq, Repr

/-- `st._mkDebug = { ...(st._mkDebug || {}), stage }` (only the stage is
modelled, so spreading and replacing coincide). -/
def setStage (st : Post) (stage : String) : Post := { st with mkDebug := some stage }

/-- A Job as built by the candidate loop; `noteId` is always present since
posts without one are skipped before a Job is created. -/
structure JobInfo where
  apUri : String
  host : String
  noteId : String
deriving DecidableEq, Repr

/-- The page-level `triedCount` / `mergedCount` / `errorCount`. -/
structure Stats where
  tried : Nat
  merged : Nat
  errored : Nat
deriving DecidableEq, Repr

def Stats.add (a b : Stats) : Stats :=
  ⟨a.tried + b.tried, a.merged + b.merged, a.errored + b.errored⟩

/-- `timeLeft()`: `none` is `Infinity` (budget disabled, the `0=unlimited`
convention), otherwise `max(0, budgetMs - elapsed)`. -/
def timeLeftOpt (budgetMs elapsed : Nat) : Option Nat :=
  if budgetMs = 0 then none else some (budgetMs - elapsed)

/-- `budgetExpired()`: `timeLeft() <= 0` (never true on `Infinity`). -/
def budgetExpired (budgetMs elapsed : Nat) : Bool :=
  match timeLeftOpt budgetMs elapsed with
  | none => false
  | some t => t == 0

/-- The request parameters the enrichment pipeline reads. -/
structure Params where
  debug : Bool
  force : Bool
  merge : Bool
  mergeLimit : Nat
  budgetMs : Nat
  prefetchMeta : Bool
deriving DecidableEq, Repr

/-- `url.searchParams.get("merge") !== "0"`. -/
def mergeParam (v : Option String) : Bool := v ≠ some "0"

/-- `url.searchParams.get("mk_prefetch") !== "0"`. -/
def prefetchParam (v : Option String) : Bool := v ≠ some "0"

/-- `url.searchParams.get("debug") === "1"`. -/
def debugParam (v : Option String) : Bool := v = some "1"

/-- `url.searchParams.get("mk_force") === "1"`. -/
def forceParam (v : Option String) : Bool := v = some "1"

/-- `Math.max(0, Number(get(name) || dflt))` for the two numeric
parameters (a `NaN` from junk input is modelled as `0`; at every use site
the handler treats `NaN` as falsy exactly like `0`). -/
def natParam (v : Option String) (dflt : String) : Nat :=
  ((jsOr v (some dflt)).bind jsNat).getD 0

/-- `merge_limit`, default `"6"`. -/
def mergeLimitParam (v : Option String) : Nat := natParam v "6"

/-- `mk_budget_ms`, default `"0"` (`0` meaning no budget). -/
def budgetParam (v : Option String) : Nat := natParam v "0"

/-- Attach the parsed reaction list to the post: `_mkReactions`, `_mkHost`,
and in debug mode keep the existing stage or set `"ok"`. -/
def attachReactions (p : Params) (jobHost : String) (st : Post) (out : List MkRx) : Post :=
  { st with
    mkReactions := some out
    mkHost := some (toLowerStr jobHost)
    mkDebug := if p.debug then some (st.mkDebug.getD "ok") else st.mkDebug }

/-- From a resolved note object to the enriched post: extract the raw
reaction map (`obj.reactions || obj.reactionCounts`), run the key loop with
the origin host's in-process metadata, and attach a nonempty result.
Returns the updated post, the `mergedCount` increment, and the counter and
event deltas. -/
def processNote (w : World) (p : Params) (j : JobInfo) (st0 : Post) (obj : NoteObj) :
    Post × Nat × Counters × List NetEvent :=
  match jsOrOpt obj.reactions obj.reactionCounts with
  | none => ((if p.debug then setStage st0 "no_reactions" else st0), 0, .zero, [])
  | some rx =>
    let meta := if p.prefetchMeta then w.metaMem j.host else none
    let r := processReactions w meta obj j.host p.force rx
    if r.1 = [] then
      ((if p.debug then setStage st0 "empty_after_parse" else st0), 0, r.2.1, r.2.2)
    else (attachReactions p j.host st0 r.1, 1, r.2.1, r.2.2)

/-- The result of one Job. -/
structure JobOut where
  post : Post
  stats : Stats
  ctrs : Counters
  evs : List NetEvent
deriving DecidableEq, Repr

/-- One enrichment Job, as run inside the limiter: the budget gate at
entry (`e1` is the elapsed time then), `ap/show` first, the
`notes/show` fallback behind a second budget check (`e2`), then the
reaction parsing block.  A thrown fetch is caught by the per-job `catch`,
which increments `errorCount` and (in debug mode) sets the `error` stage. -/
def processJob (w : World) (p : Params) (e1 e2 : Nat) (j : JobInfo) (st : Post) : JobOut :=
  if budgetExpired p.budgetMs e1 then ⟨st, ⟨0, 0, 0⟩, .zero, []⟩
  else
    let ap := getApShowM w j.host j.apUri
    match ap.1 with
    | .error _ =>
      ⟨(if p.debug then { st with mkDebug := some "error" } else st), ⟨1, 0, 1⟩, .zero, ap.2⟩
    | .ok sd =>
      let obj0 : Option NoteObj := sd.2.map (fun d => d.object.getD d.self)
      match obj0 with
      | some obj =>
        let st1 :=
          if p.debug ∧ st.mkDebug = none then
            setStage st (if sd.1 = 200 then "ap_show_ok" else "ap_show_failed")
          else st
        let r := processNote w p j st1 obj
        ⟨r.1, ⟨1, r.2.1, 0⟩, r.2.2.1, ap.2 ++ r.2.2.2⟩
      | none =>
        if budgetExpired p.budgetMs e2 then ⟨st, ⟨1, 0, 0⟩, .zero, ap.2⟩
        else
          let ns := getNotesShowM w j.host j.noteId
          match ns.1 with
          | .error _ =>
            ⟨(if p.debug then { st with mkDebug := some "error" } else st),
             ⟨1, 0, 1⟩, .zero, ap.2 ++ ns.2⟩
          | .ok sd2 =>
            match sd2.2 with
            | some obj2 =>
              if sd2.1 = 200 then
                let st1 := if p.debug then setStage st "fallback_notes_show_ok" else st
                let r := processNote w p j st1 obj2
                ⟨r.1, ⟨1, r.2.1, 0⟩, r.2.2.1, ap.2 ++ ns.2 ++ r.2.2.2⟩
              else
                ⟨(if p.debug then setStage st "no_ap_object_and_notes_show_failed" else st),
                 ⟨1, 0, 0⟩, .zero, ap.2 ++ ns.2⟩
            | none =>
              ⟨(if p.debug then setStage st "no_ap_object_and_notes_show_failed" else st),
               ⟨1, 0, 0⟩, .zero, ap.2 ++ ns.2⟩

/-! ## Candidate extraction, job limit and the whole handler -/

/-- The candidate decision for one post.  `crash` is the unguarded
`new URL(apUri)` at the top of the candidate loop throwing on a regex-passing
but unparseable URI (e.g. an empty host); unlike the guarded parse inside
`extractMisskeyNoteIdFromApUri`, this exception escapes the handler. -/
inductive CandResult
  | skipNoUri
  | skipShape (apUri host : String)
  | crash
  | cand (apUri host noteId : String)
deriving DecidableEq, Repr

/-- Classify one post of the timeline page: `st?.reblog?.uri || st?.uri`,
the `/^https?:\/\//i` test, the host extraction, and the note-id shape
test.  The note id is read off the already-parsed pathname, which is what
`extractMisskeyNoteIdFromApUri` recomputes on the same URI. -/
def classifyPost (st : Post) : CandResult :=
  match jsOr st.reblogUri st.uri with
  | none => .skipNoUri
  | some apUri =>
    if isHttpUri apUri = false then .skipNoUri
    else
      match parseHttpUrl apUri with
      | none => .crash
      | some hp =>
        match noteIdOfPath hp.2 with
        | none => .skipShape apUri (toLowerStr hp.1)
        | some nid => .cand apUri (toLowerStr hp.1) nid

/-- Apply a debug skip mark. -/
def markSkip (debug : Bool) (st : Post) (stage : String) : Post :=
  if debug then setStage st stage else st

/-- The candidate loop: each post paired with its Job when it is a
candidate, debug skip marks applied otherwise; a crash aborts the whole
handler. -/
def extractPosts (debug : Bool) : List Post → Except Unit (List (Post × Option JobInfo))
  | [] => .ok []
  | st :: rest =>
    match classifyPost st with
    | .crash => .error ()
    | .skipNoUri =>
      (extractPosts debug rest).map (fun r => (markSkip debug st "skip_no_ap_uri", none) :: r)
    | .skipShape _ _ =>
      (extractPosts debug rest).map
        (fun r => (markSkip debug st "skip_non_misskey_shape", none) :: r)
    | .cand a h n =>
      (extractPosts debug rest).map (fun r => (st, some ⟨a, h, n⟩) :: r)

/-- `allJobs.slice(0, mergeLimit)`: keep only the first `k` candidates'
Jobs, turning the excess candidates into plain unenriched posts. -/
def limitJobs (k : Nat) : List (Post × Option JobInfo) → List (Post × Option JobInfo)
  | [] => []
  | (st, none) :: r => (st, none) :: limitJobs k r
  | (st, some j) :: r =>
    match k with
    | 0 => (st, none) :: limitJobs 0 r
    | k' + 1 => (st, some j) :: limitJobs k' r

/-- The accumulated result of running the Jobs. -/
structure RunOut where
  posts : List Post
  stats : Stats
  ctrs : Counters
  evs : List NetEvent
deriving DecidableEq, Repr

/-- Run the Jobs over the zipped page.  The source dispatches them through
the limiter and `Promise.all`; since every Job touches only its own post
and the shared counters are sums, sequential processing in submission order
yields the per-post results and totals of any interleaving.  `sched k`
gives the elapsed times at the `k`-th Job's two budget checks. -/
def runJobs (w : World) (p : Params) (sched : Nat → Nat × Nat) :
    List (Post × Option JobInfo) → Nat → RunOut
  | [], _ => ⟨[], ⟨0, 0, 0⟩, .zero, []⟩
  | (st, none) :: r, k =>
    let rr := runJobs w p sched r k
    ⟨st :: rr.posts, rr.stats, rr.ctrs, rr.evs⟩
  | (st, some j) :: r, k =>
    let jo := processJob w p (sched k).1 (sched k).2 j st
    let rr := runJobs w p sched r (k + 1)
    ⟨jo.post :: rr.posts, jo.stats.add rr.stats, jo.ctrs.add rr.ctrs, jo.evs ++ rr.evs⟩

/-- `Array.from(new Set(...))`: de-duplicate preserving first occurrence. -/
def dedupFirstAux (seen : List String) : List String → List String
  | [] => []
  | a :: as =>
    if seen.contains a then dedupFirstAux seen as
    else a :: dedupFirstAux (a :: seen) as

def dedupFirst (l : List String) : List String := dedupFirstAux [] l

/-- The response data: status, body (`items` plus `next_max_id`) and the
three diagnostic headers (`x-mk-merge-summary`, `x-mk-merge-ms`,
`x-mk-merge-counters`). -/
structure HandlerOut where
  status : Nat
  items : List Post
  next_max_id : Option String
  summary : String
  elapsedMs : Nat
  counters : Counters
  events : List NetEvent
deriving DecidableEq, Repr

/-- The `x-mk-merge-summary` header value. -/
def summaryStr (tried merged errors : Nat) : String :=
  s!"tried={tried}; merged={merged}; errors={errors}"

/-- The handler from the point where the upstream timeline fetch has
succeeded (auth and upstream failures return before any enrichment and are
outside this model): compute `next_max_id`, and when merging is on, extract
candidates, prefetch metadata for their hosts inside the budget, run the
Jobs, and assemble the 200 response.  `linkNext` is the pagination cursor
parsed from the upstream `Link` header; `ePrefetch` the elapsed time at the
prefetch budget check; `elapsedMs` the final wall-clock value. -/
def handleHome (w : World) (p : Params) (statuses : List Post) (linkNext : Option String)
    (ePrefetch : Nat) (sched : Nat → Nat × Nat) (elapsedMs : Nat) :
    Except Unit HandlerOut :=
  let nextMaxId := jsOr linkNext ((statuses.getLast?).map (fun st => st.id))
  if p.merge = false then
    .ok ⟨200, statuses, nextMaxId, summaryStr 0 0 0, elapsedMs, .zero, []⟩
  else
    match extractPosts p.debug statuses with
    | .error e => .error e
    | .ok zipped =>
      let sliced := limitJobs p.mergeLimit zipped
      let hosts := dedupFirst ((sliced.filterMap (fun pj => pj.2)).map (fun j => j.host))
      let prefetchEvs :=
        if p.prefetchMeta ∧ budgetExpired p.budgetMs ePrefetch = false then
          hosts.map NetEvent.metaFetch
        else []
      let r := runJobs w p sched sliced 0
      .ok ⟨200, r.posts, nextMaxId,
           summaryStr r.stats.tried r.stats.merged r.stats.errored,
           elapsedMs, r.ctrs, prefetchEvs ++ r.evs⟩

/-! ## The admission gate (`limiter`)

`limiter(concurrency)` keeps a counter `active` and a FIFO `queue` of
resumptions.  `submit` models a call of the returned function: a task
arriving while `active >= concurrency` pushes its resumption onto the queue
and waits, otherwise `active` is incremented and the task starts.  `finish`
models the task's `finally { next() }`: decrement `active`, shift the queue
and resume its head (which immediately re-increments `active` and starts).
The decrement and the resumed increment are modelled as one atomic step,
which is faithful for every trace in which all submissions precede the
first completion — exactly the handler's usage, where `jobs.map(job =>
run(...))` submits every task synchronously before any can complete. -/

/-- A submission of a Job to the gate, or the completion of a running
Job, each labelled by a Job identifier. -/
inductive LimEvent
  | submit (j : Nat)
  | finish (j : Nat)
deriving DecidableEq, Repr

/-- The gate state plus two history logs: the order in which Jobs were
enqueued to wait, and the order in which waiting Jobs were resumed. -/
structure LimState where
  active : Nat
  running : List Nat
  queue : List Nat
  enqueuedLog : List Nat
  resumed : List Nat
deriving DecidableEq, Repr

def LimState.init : LimState := ⟨0, [], [], [], []⟩

/-- One transition of the gate. -/
def limStep (limit : Nat) (s : LimState) : LimEvent → LimState
  | .submit j =>
    if limit ≤ s.active then
      { s with queue := s.queue ++ [j], enqueuedLog := s.enqueuedLog ++ [j] }
    else { s with active := s.active + 1, running := s.running ++ [j] }
  | .finish j =>
    if s.running.contains j then
      match s.queue with
      | [] => { s with active := s.active - 1, running := s.running.erase j }
      | wjob :: rest =>
        { s with
          active := s.active - 1 + 1
          running := s.running.erase j ++ [wjob]
          queue := rest
          resumed := s.resumed ++ [wjob] }
    else s

/-- Run a trace of gate events from the initial state. -/
def limRun (limit : Nat) (evs : List LimEvent) : LimState :=
  evs.foldl (limStep limit) LimState.init

/-! ## The resolution order the claim describes, and the tier list -/

/-- Modelled from the spec: the four custom-branch resolution tiers in the
order the claim states them — (a) the origin host's metadata table, (b) the
alternate host's metadata table only, (c) the origin note's embedded Emoji
tag list, (d) public-path probing — first non-null wins, with no probe
before (a)-(c) have failed. -/
def specOrderedCustomUrl (w : World) (meta : Option Meta) (altHost : Option String)
    (obj : NoteObj) (jobHost name : String) : Option String :=
  let tierA := meta.bind (fun m => resolveEmojiUrlFromMeta m name)
  let tierB :=
    match altHost with
    | some h0 =>
      (w.metaOf ((normalizeHost (some h0)).getD "")).bind
        (fun m => resolveEmojiUrlFromMeta m (normalizeName name))
    | none => none
  let tierC := resolveEmojiUrlFromApTag obj name
  let tierD := (probeEmojiUrlM w ((normalizeHost altHost).getD jobHost) name).1
  jsOrOpt tierA (jsOrOpt tierB (jsOrOpt tierC tierD))

/-- The resolution chain the code actually runs, as an ordered list of
tier outcomes: origin metadata; the alternate host's metadata *followed
immediately by a public-path probe of that host* (the fallthrough inside
`getEmojiUrlFromHost`); the AP tag list; the final probe. -/
def customUrlTiers (w : World) (meta : Option Meta) (altHost : Option String)
    (obj : NoteObj) (jobHost name : String) : List (Option String) :=
  [ meta.bind (fun m => resolveEmojiUrlFromMeta m name)
  , match altHost with
    | some h0 => (getEmojiUrlFromHost w ((normalizeHost (some h0)).getD "") name).1
    | none => none
  , resolveEmojiUrlFromApTag obj name
  , (probeEmojiUrlM w ((normalizeHost altHost).getD jobHost) name).1 ]

/-- Short-circuiting evaluation of an ordered strategy list. -/
def firstSome {α : Type} : List (Option α) → Option α
  | [] => none
  | o :: r =>
    match o with
    | some x => some x
    | none => firstSome r

/-! ## Concrete worlds and inputs used by the counterexamples and witnesses -/

/-- A world where every remote call misses: `ap/show` and `notes/show`
return 404, no metadata is available anywhere, and every probe fails. -/
def emptyWorld : World :=
  { apShowFetch := fun _ _ => .ok (404, none)
    notesShowFetch := fun _ _ => .ok (404, none)
    metaMem := fun _ => none
    metaOf := fun _ => none
    probe := fun _ _ => none }

/-- A note with a single unicode heart reaction. -/
def heartNote : NoteObj :=
  { reactions := some [("❤", 3)], reactionCounts := none, tag := [] }

/-- An empty note object. -/
def emptyNote : NoteObj :=
  { reactions := none, reactionCounts := none, tag := [] }

/-- The parameters produced by a request with `mk_budget_ms=0` and every
other enrichment parameter left at its default. -/
def budgetZeroParams : Params :=
  { debug := debugParam none
    force := forceParam none
    merge := mergeParam none
    mergeLimit := mergeLimitParam none
    budgetMs := budgetParam (some "0")
    prefetchMeta := prefetchParam none }

/-- A world where `ap/show` succeeds for the one candidate note. -/
def budgetZeroWorld : World :=
  { emptyWorld with
    apShowFetch := fun h u =>
      if h = "origin.example" ∧ u = "https://origin.example/notes/abc123" then
        .ok (200, some { object := none, self := heartNote })
      else .ok (404, none) }

/-- The one candidate post of the budget counterexample. -/
def budgetZeroPost : Post :=
  { id := "1", uri := some "https://origin.example/notes/abc123", reblogUri := none }

/-- The response the handler produces for the budget counterexample. -/
def budgetZeroOut : HandlerOut :=
  { status := 200
    items := [{ budgetZeroPost with
                mkReactions := some [⟨"❤", none, 3, some "❤", none⟩]
                mkHost := some "origin.example" }]
    next_max_id := some "1"
    summary := "tried=1; merged=1; errors=0"
    elapsedMs := 42
    counters := { Counters.zero with unicode_pass := 1 }
    events := [.metaFetch "origin.example",
               .apShow "origin.example" "https://origin.example/notes/abc123"] }

/-- Parameters with a positive budget, used to exercise the expiry gate. -/
def budgetFiveParams : Params :=
  { budgetZeroParams with budgetMs := budgetParam (some "5") }

/-- A note carrying a `:blob@alt.example:` reaction and an embedded Emoji
tag for `blob`. -/
def tagNote : NoteObj :=
  { reactions := some [(":blob@alt.example:", 2)]
    reactionCounts := none
    tag := [{ type := "Emoji", name := some ":blob:"
              iconUrl := some "https://tag.example/blob.png" }] }

/-- A world where `alt.example` has no metadata but a successful public
path probe for `blob`. -/
def probeWorld : World :=
  { emptyWorld with
    probe := fun h n =>
      if h = "alt.example" ∧ n = "blob" then some "https://alt.example/emoji/blob.webp"
      else none }

/-- Raw `/api/meta` of a host whose emoji table has `heart` and whose alias
table maps `heart` to the literal glyph. -/
def aliasRawMeta : RawMeta :=
  { emojis := some [{ name := "heart", url := some "https://o.example/files/heart.png"
                      uri := none, publicUrl := none }]
    reactionEmojis := some [("heart", "❤")]
    reactions := none
    reactionsConfigReactions := none }

/-- The indexed form of `aliasRawMeta`. -/
def aliasMeta : Meta := buildMetaIndex aliasRawMeta

/-- Raw `/api/meta` with the `heart` emoji but no alias table. -/
def plainRawMeta : RawMeta :=
  { emojis := some [{ name := "heart", url := some "https://o.example/files/heart.png"
                      uri := none, publicUrl := none }]
    reactionEmojis := none
    reactions := none
    reactionsConfigReactions := none }

/-- The indexed form of `plainRawMeta`. -/
def plainMeta : Meta := buildMetaIndex plainRawMeta

/-- A world where `ap/show` always fails with 404 but `notes/show`
succeeds for note `abc123` with a one-heart reaction map. -/
def fallbackWorld : World :=
  { emptyWorld with
    notesShowFetch := fun h n =>
      if h = "origin.example" ∧ n = "abc123" then
        .ok (200, some { reactions := some [("❤", 1)], reactionCounts := none, tag := [] })
      else .ok (404, none) }

/-- The Job of the fallback scenario. -/
def fallbackJob : JobInfo :=
  { apUri := "https://origin.example/notes/abc123"
    host := "origin.example"
    noteId := "abc123" }

/-- The post of the fallback scenario. -/
def fallbackPost : Post :=
  { id := "5", uri := some "https://origin.example/notes/abc123", reblogUri := none }

/-- Pipeline parameters with the given debug flag and everything else at
its default. -/
def paramsWithDebug (d : Bool) : Params :=
  { debug := d, force := false, merge := true, mergeLimit := 6
    budgetMs := 0, prefetchMeta := true }

/-- A post whose URI passes the `/^https?:\/\//i` test but makes
`new URL` throw: `http://` has an empty host, which is a parse failure for
a special scheme even under WHATWG's slash-skipping leniency. -/
def crashPost : Post := { id := "9", uri := some "http://", reblogUri := none }

/-- The parameters produced by a request with `merge=0`. -/
def mergeOffParams : Params :=
  { debug := false, force := false, merge := mergeParam (some "0")
    mergeLimit := 6, budgetMs := 0, prefetchMeta := true }

/-- The invariant of the admission gate: `active` counts the in-flight
Jobs, never exceeds the limit, and the enqueue log splits into the Jobs
already resumed (in order) followed by the Jobs still waiting — which is
exactly FIFO resumption. -/
def LimInv (limit : Nat) (s : LimState) : Prop :=
  s.active = s.running.length ∧ s.active ≤ limit ∧
  s.enqueuedLog = s.resumed ++ s.queue

end MiniFedi

namespace MiniFedi

/-! # Lemmas

## Character and string normalization lemmas

These support reasoning about `normalizeName`, in particular that
normalizing twice equals normalizing once for colon-free keys. -/

theorem charToNat_inj {a b : Char} (h : a.toNat = b.toNat) : a = b :=
  Char.ext (UInt32.ext h)

theorem lowerChar_of_not_upper {c : Char} (h : ¬(65 ≤ c.toNat ∧ c.toNat ≤ 90)) :
    lowerChar c = c := by
  unfold lowerChar Char.toLower
  rw [if_neg (by omega)]

theorem lowerChar_toNat_of_upper {c : Char} (h : 65 ≤ c.toNat ∧ c.toNat ≤ 90) :
    (lowerChar c).toNat = c.toNat + 32 := by
  unfold lowerChar Char.toLower
  rw [if_pos (by omega)]
  have hv : Nat.isValidChar (c.toNat + 32) := Or.inl (by omega)
  simp [Char.ofNat, hv]
  rfl

theorem lowerChar_idem (c : Char) : lowerChar (lowerChar c) = lowerChar c := by
  by_cases h : 65 ≤ c.toNat ∧ c.toNat ≤ 90
  · apply lowerChar_of_not_upper
    rw [lowerChar_toNat_of_upper h]
    omega
  · rw [lowerChar_of_not_upper h, lowerChar_of_not_upper h]

theorem isWhitespace_iff_toNat (c : Char) :
    c.isWhitespace = true ↔ (c.toNat = 32 ∨ c.toNat = 9 ∨ c.toNat = 13 ∨ c.toNat = 10) := by
  unfold Char.isWhitespace
  constructor
  · intro h
    simp only [Bool.or_eq_true, decide_eq_true_eq] at h
    rcases h with ((h | h) | h) | h <;> subst h <;> simp
  · intro h
    simp only [Bool.or_eq_true, decide_eq_true_eq]
    rcases h with h | h | h | h
    · exact Or.inl (Or.inl (Or.inl (charToNat_inj h)))
    · exact Or.inl (Or.inl (Or.inr (charToNat_inj h)))
    · exact Or.inl (Or.inr (charToNat_inj h))
    · exact Or.inr (charToNat_inj h)

theorem isSpaceChar_lowerChar (c : Char) : isSpaceChar (lowerChar c) = isSpaceChar c := by
  unfold isSpaceChar
  by_cases h : 65 ≤ c.toNat ∧ c.toNat ≤ 90
  · have h1 : (lowerChar c).toNat = c.toNat + 32 := lowerChar_toNat_of_upper h
    have e1 : (lowerChar c).isWhitespace = false := by
      rw [← Bool.not_eq_true]
      intro hw
      have := (isWhitespace_iff_toNat _).mp hw
      omega
    have e2 : c.isWhitespace = false := by
      rw [← Bool.not_eq_true]
      intro hw
      have := (isWhitespace_iff_toNat _).mp hw
      omega
    rw [e1, e2]
  · rw [lowerChar_of_not_upper h]

theorem toNat_colon : (':' : Char).toNat = 58 := rfl

theorem lowerChar_eq_colon_iff (c : Char) : lowerChar c = ':' ↔ c = ':' := by
  by_cases h : 65 ≤ c.toNat ∧ c.toNat ≤ 90
  · constructor
    · intro hc
      have := lowerChar_toNat_of_upper h
      rw [hc] at this
      rw [toNat_colon] at this
      omega
    · intro hc
      subst hc
      simp [toNat_colon] at h
  · rw [lowerChar_of_not_upper h]

theorem head?_dropWhile {p : Char → Bool} {l : List Char} {a : Char}
    (h : (l.dropWhile p).head? = some a) : p a = false := by
  induction l with
  | nil => simp [List.dropWhile] at h
  | cons b t ih =>
    rw [List.dropWhile] at h
    by_cases hb : p b
    · simp only [hb] at h
      exact ih h
    · have hb' : p b = false := by simpa using hb
      simp only [hb'] at h
      simp at h
      subst h
      exact hb'

theorem dropWhile_eq_self_of_head {p : Char → Bool} {l : List Char}
    (h : ∀ a, l.head? = some a → p a = false) : l.dropWhile p = l := by
  cases l with
  | nil => rfl
  | cons b t =>
    have hb : p b = false := h b rfl
    simp [List.dropWhile, hb]

theorem trim_eq_self_of_ends {l : List Char}
    (h1 : ∀ a, l.head? = some a → isSpaceChar a = false)
    (h2 : ∀ a, l.getLast? = some a → isSpaceChar a = false) : trimChars l = l := by
  unfold trimChars
  rw [dropWhile_eq_self_of_head h1]
  rw [dropWhile_eq_self_of_head (by
    intro a ha
    rw [List.head?_reverse] at ha
    exact h2 a ha)]
  exact List.reverse_reverse l

theorem trim_head {l : List Char} {a : Char}
    (h : (trimChars l).head? = some a) : isSpaceChar a = false := by
  unfold trimChars at h
  have hpre : ((l.dropWhile isSpaceChar).reverse.dropWhile isSpaceChar).reverse <+:
      l.dropWhile isSpaceChar := by
    rw [← List.reverse_suffix, List.reverse_reverse]
    exact List.dropWhile_suffix isSpaceChar
  obtain ⟨t, ht⟩ := hpre
  have hh : (l.dropWhile isSpaceChar).head? = some a := by
    rw [← ht]
    cases hcase : ((l.dropWhile isSpaceChar).reverse.dropWhile isSpaceChar).reverse with
    | nil => rw [hcase] at h; simp at h
    | cons x xs =>
      rw [hcase] at h
      simp at h
      simp [h]
  exact head?_dropWhile hh

theorem trim_last {l : List Char} {a : Char}
    (h : (trimChars l).getLast? = some a) : isSpaceChar a = false := by
  unfold trimChars at h
  rw [List.getLast?_reverse] at h
  exact head?_dropWhile h

theorem trim_trim (l : List Char) : trimChars (trimChars l) = trimChars l :=
  trim_eq_self_of_ends (fun _ ha => trim_head ha) (fun _ ha => trim_last ha)

theorem mem_trim {a : Char} {l : List Char} (h : a ∈ trimChars l) : a ∈ l := by
  unfold trimChars at h
  rw [List.mem_reverse] at h
  have h2 := (List.dropWhile_sublist isSpaceChar).mem h
  rw [List.mem_reverse] at h2
  exact (List.dropWhile_sublist isSpaceChar).mem h2

theorem dropLeadColon_eq_self {l : List Char} (h : ':' ∉ l) : dropLeadColon l = l := by
  cases l with
  | nil => rfl
  | cons b t =>
    have hb : b ≠ ':' := fun he => h (he ▸ List.mem_cons_self _ _)
    simp [dropLeadColon, hb]

theorem strip_eq_self_of_no_colon {l : List Char} (h : ':' ∉ l) : stripColonsChars l = l := by
  unfold stripColonsChars
  rw [dropLeadColon_eq_self h]
  rw [dropLeadColon_eq_self (by rw [List.mem_reverse]; exact h)]
  exact List.reverse_reverse l

theorem dropWhile_map_lower (l : List Char) :
    (l.map lowerChar).dropWhile isSpaceChar = (l.dropWhile isSpaceChar).map lowerChar := by
  induction l with
  | nil => rfl
  | cons b t ih =>
    simp only [List.map_cons, List.dropWhile]
    rw [isSpaceChar_lowerChar b]
    by_cases hb : isSpaceChar b
    · simp only [hb, ih]
    · have hb' : isSpaceChar b = false := by simpa using hb
      simp only [hb', List.map_cons]

theorem trim_map_lower (l : List Char) :
    trimChars (l.map lowerChar) = (trimChars l).map lowerChar := by
  unfold trimChars
  rw [dropWhile_map_lower, ← List.map_reverse, dropWhile_map_lower, ← List.map_reverse]

theorem colon_not_mem_map_lower {l : List Char} (h : ':' ∉ l) : ':' ∉ l.map lowerChar := by
  intro hmem
  obtain ⟨c, hc, he⟩ := List.mem_map.mp hmem
  exact h (((lowerChar_eq_colon_iff c).mp he) ▸ hc)

theorem normalizeName_data (s : String) :
    (normalizeName s).data = (trimChars (stripColonsChars s.data)).map lowerChar := rfl

/-- Normalizing a colon-free key twice equals normalizing it once. -/
theorem normalizeName_idem_of_no_colon {s : String} (h : containsChar s ':' = false) :
    normalizeName (normalizeName s) = normalizeName s := by
  have hmem : ':' ∉ s.data := by
    have : ':' ∉ s.toList := by simpa [containsChar] using h
    simpa [String.toList] using this
  have hstrip : stripColonsChars s.data = s.data := strip_eq_self_of_no_colon hmem
  have hn : (normalizeName s).data = (trimChars s.data).map lowerChar := by
    rw [normalizeName_data, hstrip]
  have hmem2 : ':' ∉ (normalizeName s).data := by
    rw [hn]
    exact colon_not_mem_map_lower (fun hm => hmem (mem_trim hm))
  apply String.ext
  rw [normalizeName_data, strip_eq_self_of_no_colon hmem2, hn, trim_map_lower, trim_trim,
      List.map_map]
  exact List.map_congr_left (fun a _ => lowerChar_idem a)

/-! ## Admission gate lemmas -/

theorem limStep_inv (limit : Nat) (s : LimState) (e : LimEvent) (h : LimInv limit s) :
    LimInv limit (limStep limit s e) := by
  obtain ⟨h1, h2, h3⟩ := h
  cases e with
  | submit j =>
    by_cases hc : limit ≤ s.active
    · simp only [limStep, if_pos hc]
      refine ⟨h1, h2, ?_⟩
      dsimp only
      rw [h3, List.append_assoc]
    · simp only [limStep, if_neg hc]
      refine ⟨?_, ?_, h3⟩
      · dsimp only
        simp [h1]
      · dsimp only
        omega
  | finish j =>
    by_cases hc : s.running.contains j
    · have hmem : j ∈ s.running := by simpa using hc
      have hlen : (s.running.erase j).length = s.running.length - 1 :=
        List.length_erase_of_mem hmem
      have hpos : 0 < s.running.length := List.length_pos.mpr (List.ne_nil_of_mem hmem)
      cases hq : s.queue with
      | nil =>
        simp only [limStep, if_pos hc, hq]
        refine ⟨?_, ?_, ?_⟩
        · dsimp only
          rw [hlen]
          omega
        · dsimp only
          omega
        · dsimp only
          rw [h3, hq]
      | cons wj rest =>
        simp only [limStep, if_pos hc, hq]
        refine ⟨?_, ?_, ?_⟩
        · dsimp only
          simp [hlen]
          omega
        · dsimp only
          omega
        · dsimp only
          rw [h3, hq]
          simp
    · have hnm : j ∉ s.running := by simpa using hc
      simp only [limStep]
      rw [if_neg (by simpa using hc)]
      exact ⟨h1, h2, h3⟩

theorem limRun_inv (limit : Nat) (evs : List LimEvent) : LimInv limit (limRun limit evs) := by
  suffices hgen : ∀ (s : LimState), LimInv limit s →
      LimInv limit (evs.foldl (limStep limit) s) by
    exact hgen LimState.init ⟨rfl, Nat.zero_le _, rfl⟩
  induction evs with
  | nil => intro s hs; exact hs
  | cons e rest ih =>
    intro s hs
    exact ih (limStep limit s e) (limStep_inv limit s e hs)

end MiniFedi

namespace MiniFedi

/-! ## Resolution-chain and per-key lemmas -/

theorem countersOfFrom_cwu (a : Nat) (f : UrlFrom) :
    (countersOfFrom a f).custom_without_url = if f = .viaNone then 1 else 0 := rfl

theorem processCustom_eq (w : World) (meta : Option Meta) (obj : NoteObj) (host : String)
    (c : Nat) (ki : KeyInfo) (a : Nat) :
    processCustom w meta obj host c ki a =
      (some ⟨normalizeName ki.name,
             (resolveCustomUrl w meta ki.host obj host (normalizeName ki.name)).1, c, none,
             itemHostOf (resolveCustomUrl w meta ki.host obj host (normalizeName ki.name)).2.1
               (resolveCustomUrl w meta ki.host obj host (normalizeName ki.name)).1 ki.host host⟩,
       countersOfFrom a (resolveCustomUrl w meta ki.host obj host (normalizeName ki.name)).2.1,
       (resolveCustomUrl w meta ki.host obj host (normalizeName ki.name)).2.2) := rfl

theorem resolveCustomUrl_none_iff (w : World) (meta : Option Meta) (altHost : Option String)
    (obj : NoteObj) (jobHost name : String) :
    ((resolveCustomUrl w meta altHost obj jobHost name).1 = none) ↔
    ((resolveCustomUrl w meta altHost obj jobHost name).2.1 = .viaNone) := by
  unfold resolveCustomUrl resolveTagThenProbe
  cases hm : meta.bind (fun m => resolveEmojiUrlFromMeta m name) with
  | some u => simp
  | none =>
    cases altHost with
    | none =>
      cases ht : resolveEmojiUrlFromApTag obj name with
      | some u => simp [ht]
      | none =>
        cases hp : (probeEmojiUrlM w ((normalizeHost none).getD jobHost) name).1 with
        | some u => simp [ht, hp]
        | none => simp [ht, hp]
    | some h0 =>
      cases hg : (getEmojiUrlFromHost w ((normalizeHost (some h0)).getD "") name).1 with
      | some u => simp [hg]
      | none =>
        cases ht : resolveEmojiUrlFromApTag obj name with
        | some u => simp [hg, ht]
        | none =>
          cases hp : (probeEmojiUrlM w ((normalizeHost (some h0)).getD jobHost) name).1 with
          | some u => simp [hg, ht, hp]
          | none => simp [hg, ht, hp]

/-- Every `processKey` result is the zero-count drop, a unicode-glyph
emission (count preserved, `char` set, no URL, no events,
`custom_without_url` untouched), or a custom-branch emission through
`processCustom`; the two emitting shapes only arise when the zero-count
guard did not fire. -/
theorem processKey_shape (w : World) (meta : Option Meta) (obj : NoteObj) (host : String)
    (force : Bool) (k : String) (c : Nat) :
    processKey w meta obj host force k c = (none, Counters.zero, []) ∨
    (¬(c = 0 ∧ force = false) ∧
      ((∃ nm ctr, processKey w meta obj host force k c =
          (some ⟨nm, none, c, some nm, none⟩, ctr, []) ∧ ctr.custom_without_url = 0) ∨
       (∃ ki a, processKey w meta obj host force k c = processCustom w meta obj host c ki a))) := by
  unfold processKey
  split
  · exact Or.inl rfl
  · next hz =>
    dsimp only
    split
    · next ch heq => exact Or.inr ⟨hz, Or.inl ⟨ch, _, rfl, rfl⟩⟩
    · next n h0 heq => exact Or.inr ⟨hz, Or.inr ⟨_, 1, rfl⟩⟩
    · next heq =>
      split
      · next hre => exact Or.inr ⟨hz, Or.inr ⟨_, 0, rfl⟩⟩
      · next hre =>
        split
        · next hk => exact Or.inr ⟨hz, Or.inl ⟨_, _, rfl, rfl⟩⟩
        · next hk => exact Or.inr ⟨hz, Or.inr ⟨_, 0, rfl⟩⟩

theorem processKey_count (w : World) (meta : Option Meta) (obj : NoteObj) (host : String)
    (k : String) (c : Nat) (d : MkRx)
    (hd : (processKey w meta obj host false k c).1 = some d) : d.count ≠ 0 := by
  rcases processKey_shape w meta obj host false k c with h | ⟨hz, ⟨nm, ctr, h, _⟩ | ⟨ki, a, h⟩⟩
  · rw [h] at hd; simp at hd
  · rw [h] at hd
    cases hd
    simpa using hz
  · rw [h, processCustom_eq] at hd
    cases hd
    simpa using hz

theorem processKey_none_counter (w : World) (meta : Option Meta) (obj : NoteObj) (host : String)
    (force : Bool) (k : String) (c : Nat)
    (hd : (processKey w meta obj host force k c).1 = none) :
    (processKey w meta obj host force k c).2.1 = Counters.zero := by
  rcases processKey_shape w meta obj host force k c with h | ⟨hz, ⟨nm, ctr, h, _⟩ | ⟨ki, a, h⟩⟩
  · rw [h]
  · rw [h] at hd; simp at hd
  · rw [h, processCustom_eq] at hd; simp at hd

theorem processKey_char_url (w : World) (meta : Option Meta) (obj : NoteObj) (host : String)
    (force : Bool) (k : String) (c : Nat) (d : MkRx)
    (hd : (processKey w meta obj host force k c).1 = some d) :
    (d.char.isSome = true → d.url = none) ∧
    (processKey w meta obj host force k c).2.1.custom_without_url =
      (if d.char = none ∧ d.url = none then 1 else 0) := by
  rcases processKey_shape w meta obj host force k c with h | ⟨hz, ⟨nm, ctr, h, hc0⟩ | ⟨ki, a, h⟩⟩
  · rw [h] at hd; simp at hd
  · rw [h] at hd
    cases hd
    rw [h]
    exact ⟨fun _ => rfl, by simpa using hc0⟩
  · rw [h, processCustom_eq] at hd
    cases hd
    rw [h, processCustom_eq]
    refine ⟨by simp, ?_⟩
    dsimp only
    rw [countersOfFrom_cwu]
    by_cases hu : (resolveCustomUrl w meta ki.host obj host (normalizeName ki.name)).1 = none
    · rw [if_pos ((resolveCustomUrl_none_iff _ _ _ _ _ _).mp hu), if_pos ⟨rfl, hu⟩]
    · rw [if_neg (fun hvn => hu ((resolveCustomUrl_none_iff _ _ _ _ _ _).mpr hvn)),
          if_neg (by simp [hu])]

/-! ## Reaction-loop lemmas -/

theorem processReactions_count (w : World) (meta : Option Meta) (obj : NoteObj) (host : String)
    (rx : List (String × Nat)) (d : MkRx)
    (hd : d ∈ (processReactions w meta obj host false rx).1) : d.count ≠ 0 := by
  induction rx with
  | nil => simp [processReactions] at hd
  | cons kc rest ih =>
    unfold processReactions at hd
    dsimp only at hd
    cases hk : (processKey w meta obj host false kc.1 kc.2).1 with
    | some d0 =>
      rw [hk] at hd
      rcases List.mem_cons.mp hd with rfl | hmem
      · exact processKey_count w meta obj host kc.1 kc.2 d hk
      · exact ih hmem
    | none =>
      rw [hk] at hd
      exact ih hd

theorem processReactions_char_url (w : World) (meta : Option Meta) (obj : NoteObj)
    (host : String) (force : Bool) (rx : List (String × Nat)) (d : MkRx)
    (hd : d ∈ (processReactions w meta obj host force rx).1)
    (hchar : d.char.isSome = true) : d.url = none := by
  induction rx with
  | nil => simp [processReactions] at hd
  | cons kc rest ih =>
    unfold processReactions at hd
    dsimp only at hd
    cases hk : (processKey w meta obj host force kc.1 kc.2).1 with
    | some d0 =>
      rw [hk] at hd
      rcases List.mem_cons.mp hd with rfl | hmem
      · exact (processKey_char_url w meta obj host force kc.1 kc.2 d hk).1 hchar
      · exact ih hmem
    | none =>
      rw [hk] at hd
      exact ih hd

theorem processReactions_cwu (w : World) (meta : Option Meta) (obj : NoteObj) (host : String)
    (force : Bool) (rx : List (String × Nat)) :
    (processReactions w meta obj host force rx).2.1.custom_without_url =
      ((processReactions w meta obj host force rx).1.filter
        (fun d => d.char.isNone && d.url.isNone)).length := by
  induction rx with
  | nil => rfl
  | cons kc rest ih =>
    unfold processReactions
    dsimp only
    cases hk : (processKey w meta obj host force kc.1 kc.2).1 with
    | none =>
      have h0 := processKey_none_counter w meta obj host force kc.1 kc.2 hk
      simp [Counters.add, h0, ih, Counters.zero]
    | some d =>
      have h1 := (processKey_char_url w meta obj host force kc.1 kc.2 d hk).2
      simp only [Counters.add, h1, ih, List.filter_cons]
      by_cases hcond : d.char = none ∧ d.url = none
      · rw [if_pos hcond, if_pos (by simp [hcond.1, hcond.2])]
        simp [Nat.add_comm]
      · rw [if_neg hcond, if_neg (by
          intro hb
          simp only [Bool.and_eq_true, Option.isNone_iff_eq_none] at hb
          exact hcond ⟨hb.1, hb.2⟩)]
        simp

end MiniFedi

namespace MiniFedi

/-! ## Per-job lemmas -/

theorem processNote_count (w : World) (p : Params) (j : JobInfo) (st0 : Post) (obj : NoteObj)
    (out : List MkRx) (d : MkRx)
    (hforce : p.force = false) (hinit : st0.mkReactions = none)
    (hout : (processNote w p j st0 obj).1.mkReactions = some out)
    (hd : d ∈ out) : d.count ≠ 0 := by
  unfold processNote at hout
  split at hout
  · split at hout <;> simp [setStage, hinit] at hout
  · next rx heq =>
    dsimp only at hout
    generalize hm : (if p.prefetchMeta = true then w.metaMem j.host else none) = m at hout
    split at hout
    · split at hout <;> simp [setStage, hinit] at hout
    · have hrw : (processReactions w m obj j.host p.force rx).1 = out := by
        simpa [attachReactions] using hout
      rw [hforce] at hrw
      exact processReactions_count w m obj j.host rx d (hrw ▸ hd)

theorem processJob_count (w : World) (p : Params) (e1 e2 : Nat) (j : JobInfo) (st : Post)
    (out : List MkRx) (d : MkRx)
    (hforce : p.force = false) (hinit : st.mkReactions = none)
    (hout : (processJob w p e1 e2 j st).post.mkReactions = some out)
    (hd : d ∈ out) : d.count ≠ 0 := by
  unfold processJob at hout
  split at hout
  · rw [hinit] at hout; simp at hout
  · dsimp only at hout
    split at hout
    · split at hout <;> simp_all [hinit]
    · split at hout
      · exact processNote_count w p j _ _ out d hforce (by split <;> simp [setStage, hinit]) hout hd
      · split at hout
        · rw [hinit] at hout; simp at hout
        · split at hout
          · split at hout <;> simp_all [hinit]
          · split at hout
            · split at hout
              · exact processNote_count w p j _ _ out d hforce
                  (by split <;> simp [setStage, hinit]) hout hd
              · split at hout <;> simp_all [setStage, hinit]
            · split at hout <;> simp_all [setStage, hinit]

/-- The shape of a Job whose `ap/show` fails with data-less status `s` and
whose `notes/show` fallback succeeds with status 200: the URI endpoint is
queried first, the id endpoint second, and in debug mode the
`fallback_notes_show_ok` stage is set before reaction parsing. -/
theorem fallback_success_shape (w : World) (p : Params) (e1 e2 : Nat) (j : JobInfo)
    (st : Post) (s : Nat) (obj2 : NoteObj)
    (hdbg : p.debug = true)
    (hb1 : budgetExpired p.budgetMs e1 = false)
    (hb2 : budgetExpired p.budgetMs e2 = false)
    (hap : w.apShowFetch j.host j.apUri = .ok (s, none))
    (hns : w.notesShowFetch j.host j.noteId = .ok (200, some obj2)) :
    processJob w p e1 e2 j st =
      ⟨(processNote w p j (setStage st "fallback_notes_show_ok") obj2).1,
       ⟨1, (processNote w p j (setStage st "fallback_notes_show_ok") obj2).2.1, 0⟩,
       (processNote w p j (setStage st "fallback_notes_show_ok") obj2).2.2.1,
       .apShow j.host j.apUri :: .notesShow j.host j.noteId ::
         (processNote w p j (setStage st "fallback_notes_show_ok") obj2).2.2.2⟩ := by
  unfold processJob getApShowM getNotesShowM
  rw [hap, hns, hb1, hb2]
  by_cases hs : 200 ≤ s ∧ s ≤ 299
  · simp [hs, hdbg]
  · simp [hs, hdbg]

/-- The shape of a Job whose `ap/show` fails with data-less status `s` and
whose `notes/show` fallback also fails (non-2xx status or missing body):
the Job ends unenriched with `errorCount` untouched, and in debug mode the
`no_ap_object_and_notes_show_failed` stage set. -/
theorem both_fail_shape (w : World) (p : Params) (e1 e2 : Nat) (j : JobInfo)
    (st : Post) (s s2 : Nat) (d2 : Option NoteObj)
    (hb1 : budgetExpired p.budgetMs e1 = false)
    (hb2 : budgetExpired p.budgetMs e2 = false)
    (hap : w.apShowFetch j.host j.apUri = .ok (s, none))
    (hns : w.notesShowFetch j.host j.noteId = .ok (s2, d2))
    (hfail : ¬(200 ≤ s2 ∧ s2 ≤ 299) ∨ d2 = none) :
    processJob w p e1 e2 j st =
      ⟨(if p.debug = true then setStage st "no_ap_object_and_notes_show_failed" else st),
       ⟨1, 0, 0⟩, Counters.zero, [.apShow j.host j.apUri, .notesShow j.host j.noteId]⟩ := by
  unfold processJob getApShowM getNotesShowM
  rw [hap, hns, hb1, hb2]
  by_cases hs : 200 ≤ s ∧ s ≤ 299
  all_goals by_cases hs2 : 200 ≤ s2 ∧ s2 ≤ 299
  all_goals rcases hfail with hf | hf
  all_goals first
    | exact absurd hs2 hf
    | (subst hf; simp [hs, hs2])
    | simp [hs, hs2, hf]

/-- When the note has a raw reaction map and the key loop yields a
nonempty descriptor list, `processNote` attaches the reactions and in
debug mode keeps the stage already present on the post. -/
theorem processNote_keeps_stage (w : World) (p : Params) (j : JobInfo) (st0 : Post)
    (obj : NoteObj) (rx : List (String × Nat))
    (hdbg : p.debug = true)
    (hrx : jsOrOpt obj.reactions obj.reactionCounts = some rx)
    (hne : (processReactions w (if p.prefetchMeta = true then w.metaMem j.host else none)
        obj j.host p.force rx).1 ≠ []) :
    (processNote w p j st0 obj).1.mkDebug = some (st0.mkDebug.getD "ok") ∧
    (processNote w p j st0 obj).1.mkReactions ≠ none := by
  unfold processNote
  rw [hrx]
  dsimp only
  rw [if_neg hne]
  simp [attachReactions, hdbg]

/-- A Job whose `ap/show` fetch throws is caught by the per-job `catch`:
it only increments the error counter and (in debug mode) sets the `error`
stage, leaving the post otherwise untouched. -/
theorem thrown_job_only_errors (w : World) (p : Params) (e1 e2 : Nat) (j : JobInfo) (st : Post)
    (hb1 : budgetExpired p.budgetMs e1 = false)
    (hap : w.apShowFetch j.host j.apUri = .error ()) :
    processJob w p e1 e2 j st =
      ⟨(if p.debug = true then { st with mkDebug := some "error" } else st),
       ⟨1, 0, 1⟩, Counters.zero, [.apShow j.host j.apUri]⟩ := by
  unfold processJob getApShowM
  rw [hap, hb1]
  simp

/-! ## Identity preservation and page-shape lemmas -/

theorem processNote_id (w : World) (p : Params) (j : JobInfo) (st0 : Post) (obj : NoteObj) :
    (processNote w p j st0 obj).1.id = st0.id := by
  unfold processNote
  repeat' (first | split | dsimp only)
  all_goals rfl

theorem processJob_id (w : World) (p : Params) (e1 e2 : Nat) (j : JobInfo) (st : Post) :
    (processJob w p e1 e2 j st).post.id = st.id := by
  unfold processJob
  repeat' (first | split | dsimp only)
  all_goals first
    | rfl
    | (rw [processNote_id]; all_goals rfl)

theorem runJobs_ids (w : World) (p : Params) (sched : Nat → Nat × Nat)
    (l : List (Post × Option JobInfo)) (k : Nat) :
    (runJobs w p sched l k).posts.map Post.id = l.map (fun pj => pj.1.id) := by
  induction l generalizing k with
  | nil => rfl
  | cons pj rest ih =>
    obtain ⟨st, oj⟩ := pj
    cases oj with
    | none => simp [runJobs, ih]
    | some j => simp [runJobs, processJob_id, ih]

theorem limitJobs_ids (k : Nat) (l : List (Post × Option JobInfo)) :
    (limitJobs k l).map (fun pj => pj.1.id) = l.map (fun pj => pj.1.id) := by
  induction l generalizing k with
  | nil => rfl
  | cons pj rest ih =>
    obtain ⟨st, oj⟩ := pj
    cases oj with
    | none => simp [limitJobs, ih]
    | some j =>
      cases k with
      | zero => simp [limitJobs, ih]
      | succ k' => simp [limitJobs, ih]

theorem markSkip_id (d : Bool) (st : Post) (s : String) : (markSkip d st s).id = st.id := by
  unfold markSkip
  split <;> rfl

theorem extractPosts_ids (debug : Bool) (statuses : List Post)
    (z : List (Post × Option JobInfo)) (hz : extractPosts debug statuses = .ok z) :
    z.map (fun pj => pj.1.id) = statuses.map Post.id := by
  induction statuses generalizing z with
  | nil =>
    cases hz
    rfl
  | cons st rest ih =>
    unfold extractPosts at hz
    split at hz
    · simp at hz
    · cases hr : extractPosts debug rest with
      | error e => rw [hr] at hz; simp [Except.map] at hz
      | ok r =>
        rw [hr] at hz
        cases hz
        simp only [List.map_cons, markSkip_id]
        rw [ih r hr]
    · cases hr : extractPosts debug rest with
      | error e => rw [hr] at hz; simp [Except.map] at hz
      | ok r =>
        rw [hr] at hz
        cases hz
        simp only [List.map_cons, markSkip_id]
        rw [ih r hr]
    · cases hr : extractPosts debug rest with
      | error e => rw [hr] at hz; simp [Except.map] at hz
      | ok r =>
        rw [hr] at hz
        cases hz
        simp only [List.map_cons]
        rw [ih r hr]

theorem candidate_iff (st : Post) :
    (∃ a h n, classifyPost st = .cand a h n) ↔
    (∃ u, jsOr st.reblogUri st.uri = some u ∧ isHttpUri u = true ∧
          (extractMisskeyNoteIdFromApUri u).isSome = true) := by
  unfold classifyPost extractMisskeyNoteIdFromApUri
  cases hu : jsOr st.reblogUri st.uri with
  | none => simp
  | some u =>
    by_cases hh : isHttpUri u = true
    · cases hp : parseHttpUrl u with
      | none => simp [hh, hp]
      | some hp2 =>
        cases hn : noteIdOfPath hp2.2 with
        | none => simp [hh, hp, hn]
        | some nid => simp [hh, hp, hn]
    · have hh' : isHttpUri u = false := by simpa using hh
      simp [hh']

theorem limitJobs_take (k : Nat) (l : List (Post × Option JobInfo)) :
    (limitJobs k l).filterMap (fun pj => pj.2) = (l.filterMap (fun pj => pj.2)).take k := by
  induction l generalizing k with
  | nil => simp [limitJobs]
  | cons pj rest ih =>
    obtain ⟨st, oj⟩ := pj
    cases oj with
    | none => simpa [limitJobs] using ih k
    | some j =>
      cases k with
      | zero => simpa [limitJobs] using ih 0
      | succ k' => simpa [limitJobs] using ih k'

/-- When merging is off, the handler returns the page unchanged with the
all-zero summary, no counters, and no network events. -/
theorem merge_off_eval (w : World) (p : Params) (statuses : List Post)
    (linkNext : Option String) (eP : Nat) (sched : Nat → Nat × Nat) (ms : Nat)
    (hm : p.merge = false) :
    handleHome w p statuses linkNext eP sched ms =
      .ok ⟨200, statuses, jsOr linkNext ((statuses.getLast?).map (fun st => st.id)),
           "tried=0; merged=0; errors=0", ms, Counters.zero, []⟩ := by
  unfold handleHome
  rw [hm]
  rfl

/-- Whenever candidate extraction does not crash, the handler responds 200
with the id sequence of the page preserved in order and the pagination
cursor computed from the upstream Link header or the last status id. -/
theorem merge_on_ok (w : World) (p : Params) (statuses : List Post)
    (linkNext : Option String) (eP : Nat) (sched : Nat → Nat × Nat) (ms : Nat)
    (z : List (Post × Option JobInfo)) (hz : extractPosts p.debug statuses = .ok z) :
    ∃ out, handleHome w p statuses linkNext eP sched ms = .ok out ∧
      out.status = 200 ∧
      out.items.map Post.id = statuses.map Post.id ∧
      out.next_max_id = jsOr linkNext ((statuses.getLast?).map (fun st => st.id)) := by
  by_cases hm : p.merge = false
  · exact ⟨⟨200, statuses, jsOr linkNext ((statuses.getLast?).map (fun st => st.id)),
      "tried=0; merged=0; errors=0", ms, Counters.zero, []⟩,
      merge_off_eval w p statuses linkNext eP sched ms hm, rfl, rfl, rfl⟩
  · have hh : handleHome w p statuses linkNext eP sched ms =
        .ok ⟨200, (runJobs w p sched (limitJobs p.mergeLimit z) 0).posts,
             jsOr linkNext ((statuses.getLast?).map (fun st => st.id)),
             summaryStr (runJobs w p sched (limitJobs p.mergeLimit z) 0).stats.tried
               (runJobs w p sched (limitJobs p.mergeLimit z) 0).stats.merged
               (runJobs w p sched (limitJobs p.mergeLimit z) 0).stats.errored,
             ms, (runJobs w p sched (limitJobs p.mergeLimit z) 0).ctrs,
             (if p.prefetchMeta ∧ budgetExpired p.budgetMs eP = false then
                (dedupFirst (((limitJobs p.mergeLimit z).filterMap (fun pj => pj.2)).map
                  (fun jb => jb.host))).map NetEvent.metaFetch
              else []) ++ (runJobs w p sched (limitJobs p.mergeLimit z) 0).evs⟩ := by
      unfold handleHome
      rw [if_neg hm, hz]
    refine ⟨_, hh, rfl, ?_, rfl⟩
    dsimp only
    rw [runJobs_ids, limitJobs_ids, extractPosts_ids p.debug statuses z hz]

end MiniFedi

namespace MiniFedi

/-! # Claim theorems -/

/-- C1 (counterexample): a request with `mk_budget_ms=0` and one candidate
post *does* dispatch enrichment lookups (a metadata prefetch and an
`ap/show` call appear in the event trace), and the candidate comes back
enriched with no diagnostic at all — refuting the claim that a zero budget
parameter suppresses all enrichment calls and yields a budget-exhausted
diagnostic.  In the code `0` turns the budget off (`timeLeft()` is
`Infinity`). -/
theorem budget_param_zero_dispatches_and_enriches_cex :
    handleHome budgetZeroWorld budgetZeroParams [budgetZeroPost] none 0 (fun _ => (0, 0)) 42 =
      .ok budgetZeroOut ∧
    budgetZeroOut.events ≠ [] ∧
    budgetZeroOut.items.map Post.mkReactions ≠ [none] ∧
    budgetZeroOut.items.map Post.mkDebug = [none] := by
  refine ⟨rfl, by decide, by decide, by decide⟩

/-- C1 (amended): `mk_budget_ms=0` disables the global budget — the expiry
test never fires at any elapsed time — while with a positive budget a Job
that starts after the budget is exhausted dispatches no network call,
leaves its post untouched, and records no diagnostic. -/
theorem budget_zero_disables_gate_and_expiry_blocks_jobs :
    (∀ e, budgetExpired 0 e = false) ∧
    (∀ (w : World) (p : Params) (e1 e2 : Nat) (j : JobInfo) (st : Post),
      budgetExpired p.budgetMs e1 = true →
      processJob w p e1 e2 j st = ⟨st, ⟨0, 0, 0⟩, Counters.zero, []⟩) := by
  constructor
  · intro e
    rfl
  · intro w p e1 e2 j st h
    unfold processJob
    simp [h]

/-- C1 (witness): with `mk_budget_ms=5` and 7ms elapsed the gate fires and
the Job is dropped without effect. -/
theorem budget_expiry_blocks_jobs_witness :
    budgetExpired budgetFiveParams.budgetMs 7 = true ∧
    processJob budgetZeroWorld budgetFiveParams 7 8 fallbackJob budgetZeroPost =
      ⟨budgetZeroPost, ⟨0, 0, 0⟩, Counters.zero, []⟩ :=
  ⟨rfl, budget_zero_disables_gate_and_expiry_blocks_jobs.2
    budgetZeroWorld budgetFiveParams 7 8 fallbackJob budgetZeroPost rfl⟩

/-- C2 (counterexample): with no origin metadata, an alias host
`alt.example` whose metadata lacks the name, a successful public-path
probe on `alt.example`, and an embedded Emoji tag carrying the name, the
code resolves to the probe URL — a public-path probe ran and won even
though tier (c), the AP tag list, had a hit; the spec-ordered chain would
return the tag URL.  This refutes "no public-path probe is performed
before tiers (a)-(c) have all failed". -/
theorem alt_host_probe_preempts_tag_tier_cex :
    (resolveCustomUrl probeWorld none (some "alt.example") tagNote "origin.example" "blob").1 =
      some "https://alt.example/emoji/blob.webp" ∧
    specOrderedCustomUrl probeWorld none (some "alt.example") tagNote "origin.example" "blob" =
      some "https://tag.example/blob.png" ∧
    NetEvent.probe "alt.example" "blob" ∈
      (resolveCustomUrl probeWorld none (some "alt.example") tagNote "origin.example" "blob").2.2 := by
  refine ⟨rfl, rfl, by decide⟩

/-- C2 (amended): the custom-branch URL resolution is the short-circuiting
evaluation of the ordered tier list in which the alternate-host tier
consults that host's metadata *and then immediately probes its public
paths* (the fallthrough inside `getEmojiUrlFromHost`), before the AP tag
tier and the final probe. -/
theorem resolveCustomUrl_eq_ordered_tiers (w : World) (meta : Option Meta)
    (altHost : Option String) (obj : NoteObj) (jobHost name : String) :
    (resolveCustomUrl w meta altHost obj jobHost name).1 =
      firstSome (customUrlTiers w meta altHost obj jobHost name) := by
  unfold resolveCustomUrl customUrlTiers resolveTagThenProbe firstSome
  cases hm : meta.bind (fun m => resolveEmojiUrlFromMeta m name) with
  | some u => rfl
  | none =>
    cases altHost with
    | none =>
      cases ht : resolveEmojiUrlFromApTag obj name with
      | some u => rfl
      | none =>
        cases hp : (probeEmojiUrlM w ((normalizeHost none).getD jobHost) name).1 with
        | some u => simp [firstSome, ht, hp]
        | none => simp [firstSome, ht, hp]
    | some h0 =>
      cases hg : (getEmojiUrlFromHost w ((normalizeHost (some h0)).getD "") name).1 with
      | some u => simp [firstSome, hg]
      | none =>
        cases ht : resolveEmojiUrlFromApTag obj name with
        | some u => simp [firstSome, hg, ht]
        | none =>
          cases hp : (probeEmojiUrlM w ((normalizeHost (some h0)).getD jobHost) name).1 with
          | some u => simp [firstSome, hg, ht, hp]
          | none => simp [firstSome, hg, ht, hp]

/-- C3 (counterexample): the colon-wrapped key `:ghost:` is classified
custom, yet with every resolution tier failing the emitted descriptor
carries `url = none` — refuting "a descriptor classified as a custom emoji
always carries a non-null imageUrl". -/
theorem custom_without_url_null_imageUrl_cex :
    processKey emptyWorld none emptyNote "origin.example" false ":ghost:" 1 =
      (some ⟨"ghost", none, 1, none, some "origin.example"⟩,
       { Counters.zero with custom_without_url := 1 },
       [.probe "origin.example" "ghost"]) ∧
    (parseMkReactionKey ":ghost:").kind = RKind.custom := ⟨rfl, rfl⟩

/-- C3 (amended): a unicode-glyph descriptor (the ones carrying the `char`
field) never has an image URL, and the `custom_without_url` counter counts
exactly the custom descriptors emitted with a null URL — i.e. `imageUrl`
is null iff the reaction is a glyph or a custom emoji whose four
resolution tiers all failed. -/
theorem glyph_null_url_and_custom_without_url_counted :
    (∀ (w : World) (meta : Option Meta) (obj : NoteObj) (host : String) (force : Bool)
       (rx : List (String × Nat)) (d : MkRx),
      d ∈ (processReactions w meta obj host force rx).1 →
      d.char.isSome = true → d.url = none) ∧
    (∀ (w : World) (meta : Option Meta) (obj : NoteObj) (host : String) (force : Bool)
       (rx : List (String × Nat)),
      (processReactions w meta obj host force rx).2.1.custom_without_url =
        ((processReactions w meta obj host force rx).1.filter
          (fun d => d.char.isNone && d.url.isNone)).length) :=
  ⟨fun w meta obj host force rx d hd hc =>
    processReactions_char_url w meta obj host force rx d hd hc,
   fun w meta obj host force rx => processReactions_cwu w meta obj host force rx⟩

/-- C3 (witness): the heart glyph descriptor has no URL, and the counter
matches the null-URL custom descriptor count on a concrete map. -/
theorem glyph_null_url_witness :
    (⟨"❤", none, 2, some "❤", none⟩ : MkRx).url = none ∧
    (processReactions emptyWorld none emptyNote "origin.example" false
      [("❤", 2), (":ghost:", 1)]).2.1.custom_without_url =
      ((processReactions emptyWorld none emptyNote "origin.example" false
        [("❤", 2), (":ghost:", 1)]).1.filter
          (fun d => d.char.isNone && d.url.isNone)).length :=
  ⟨glyph_null_url_and_custom_without_url_counted.1 emptyWorld none emptyNote "origin.example"
      false [("❤", 2), (":ghost:", 1)] ⟨"❤", none, 2, some "❤", none⟩ (by decide) (by decide),
   glyph_null_url_and_custom_without_url_counted.2 emptyWorld none emptyNote "origin.example"
      false [("❤", 2), (":ghost:", 1)]⟩

/-- C4: the admission gate with concurrency limit 6 never has more than 6
Jobs in flight in any reachable state (any event trace, hence any instant),
and the enqueue log always equals the resumed Jobs followed by the still
waiting ones — waiting Jobs are resumed in FIFO order. -/
theorem admission_gate_bound_and_fifo (evs : List LimEvent) :
    (limRun 6 evs).running.length ≤ 6 ∧
    (limRun 6 evs).enqueuedLog = (limRun 6 evs).resumed ++ (limRun 6 evs).queue := by
  obtain ⟨h1, h2, h3⟩ := limRun_inv 6 evs
  exact ⟨h1 ▸ h2, h3⟩

end MiniFedi

namespace MiniFedi

/-- C5 (counterexample): with debug off, `ap/show` failing with 404 and
`notes/show` succeeding, the Job is enriched through the fallback but *no*
`fallback_notes_show_ok` diagnostic stage is recorded (`mkDebug` stays
absent) — the diagnostic stages of the claim exist only under `debug=1`. -/
theorem fallback_success_without_debug_records_no_stage_cex :
    processJob fallbackWorld (paramsWithDebug false) 0 0 fallbackJob fallbackPost =
      ⟨{ fallbackPost with
         mkReactions := some [⟨"❤", none, 1, some "❤", none⟩]
         mkHost := some "origin.example" },
       ⟨1, 1, 0⟩, { Counters.zero with unicode_pass := 1 },
       [.apShow "origin.example" "https://origin.example/notes/abc123",
        .notesShow "origin.example" "abc123"]⟩ ∧
    (getNotesShowM fallbackWorld "origin.example" "abc123").1 =
      .ok (200, some ⟨some [("❤", 1)], none, []⟩) := ⟨rfl, rfl⟩

/-- C5 (amended): the origin note resolver queries `ap/show` first and,
on any data-less outcome, `notes/show` second; when debug is on, a
successful fallback sets the `fallback_notes_show_ok` stage, which the
reaction-attachment step preserves whenever the parsed list is nonempty;
when both calls fail the Job ends unenriched with the
`no_ap_object_and_notes_show_failed` stage (debug on) and a zero error
count — never a hard error. -/
theorem origin_note_resolver_fallback_protocol :
    (∀ (w : World) (p : Params) (e1 e2 : Nat) (j : JobInfo) (st : Post) (s : Nat)
       (obj2 : NoteObj),
      p.debug = true →
      budgetExpired p.budgetMs e1 = false →
      budgetExpired p.budgetMs e2 = false →
      w.apShowFetch j.host j.apUri = .ok (s, none) →
      w.notesShowFetch j.host j.noteId = .ok (200, some obj2) →
      processJob w p e1 e2 j st =
        ⟨(processNote w p j (setStage st "fallback_notes_show_ok") obj2).1,
         ⟨1, (processNote w p j (setStage st "fallback_notes_show_ok") obj2).2.1, 0⟩,
         (processNote w p j (setStage st "fallback_notes_show_ok") obj2).2.2.1,
         .apShow j.host j.apUri :: .notesShow j.host j.noteId ::
           (processNote w p j (setStage st "fallback_notes_show_ok") obj2).2.2.2⟩) ∧
    (∀ (w : World) (p : Params) (j : JobInfo) (st : Post) (obj2 : NoteObj)
       (rx : List (String × Nat)),
      p.debug = true →
      jsOrOpt obj2.reactions obj2.reactionCounts = some rx →
      (processReactions w (if p.prefetchMeta = true then w.metaMem j.host else none)
        obj2 j.host p.force rx).1 ≠ [] →
      (processNote w p j (setStage st "fallback_notes_show_ok") obj2).1.mkDebug =
        some "fallback_notes_show_ok" ∧
      (processNote w p j (setStage st "fallback_notes_show_ok") obj2).1.mkReactions ≠ none) ∧
    (∀ (w : World) (p : Params) (e1 e2 : Nat) (j : JobInfo) (st : Post) (s s2 : Nat)
       (d2 : Option NoteObj),
      budgetExpired p.budgetMs e1 = false →
      budgetExpired p.budgetMs e2 = false →
      w.apShowFetch j.host j.apUri = .ok (s, none) →
      w.notesShowFetch j.host j.noteId = .ok (s2, d2) →
      (¬(200 ≤ s2 ∧ s2 ≤ 299) ∨ d2 = none) →
      processJob w p e1 e2 j st =
        ⟨(if p.debug = true then setStage st "no_ap_object_and_notes_show_failed" else st),
         ⟨1, 0, 0⟩, Counters.zero, [.apShow j.host j.apUri, .notesShow j.host j.noteId]⟩) := by
  refine ⟨?_, ?_, ?_⟩
  · intro w p e1 e2 j st s obj2 hdbg hb1 hb2 hap hns
    exact fallback_success_shape w p e1 e2 j st s obj2 hdbg hb1 hb2 hap hns
  · intro w p j st obj2 rx hdbg hrx hne
    have h := processNote_keeps_stage w p j (setStage st "fallback_notes_show_ok") obj2 rx
      hdbg hrx hne
    simpa [setStage] using h
  · intro w p e1 e2 j st s s2 d2 hb1 hb2 hap hns hfail
    exact both_fail_shape w p e1 e2 j st s s2 d2 hb1 hb2 hap hns hfail

/-- C5 (witness): the URI call returns 404, the id call succeeds, and with
debug on the enriched Job carries the `fallback_notes_show_ok` stage. -/
theorem origin_note_resolver_fallback_witness :
    processJob fallbackWorld (paramsWithDebug true) 0 0 fallbackJob fallbackPost =
      ⟨{ fallbackPost with
         mkReactions := some [⟨"❤", none, 1, some "❤", none⟩]
         mkHost := some "origin.example"
         mkDebug := some "fallback_notes_show_ok" },
       ⟨1, 1, 0⟩, { Counters.zero with unicode_pass := 1 },
       [.apShow "origin.example" "https://origin.example/notes/abc123",
        .notesShow "origin.example" "abc123"]⟩ :=
  origin_note_resolver_fallback_protocol.1 fallbackWorld (paramsWithDebug true) 0 0
    fallbackJob fallbackPost 404 ⟨some [("❤", 1)], none, []⟩ rfl rfl rfl rfl rfl

/-- C6: with `mk_force` unset no descriptor attached to a post ever has a
zero count; a zero count with the override unset is dropped by the guard
before any classification, counters or lookups; and `mk_force=1` is
exactly what sets the override. -/
theorem zero_count_reactions_dropped :
    (∀ (w : World) (p : Params) (e1 e2 : Nat) (j : JobInfo) (st : Post)
       (out : List MkRx) (d : MkRx),
      p.force = false → st.mkReactions = none →
      (processJob w p e1 e2 j st).post.mkReactions = some out →
      d ∈ out → d.count ≠ 0) ∧
    (∀ (w : World) (meta : Option Meta) (obj : NoteObj) (host : String) (k : String),
      processKey w meta obj host false k 0 = (none, Counters.zero, [])) ∧
    forceParam (some "1") = true ∧ forceParam none = false :=
  ⟨fun w p e1 e2 j st out d hf hi ho hd => processJob_count w p e1 e2 j st out d hf hi ho hd,
   fun _ _ _ _ _ => rfl, rfl, by decide⟩

/-- C6 (witness): the single attached descriptor of the fallback scenario
has a nonzero count. -/
theorem zero_count_reactions_dropped_witness :
    (⟨"❤", none, 1, some "❤", none⟩ : MkRx).count ≠ 0 :=
  zero_count_reactions_dropped.1 fallbackWorld (paramsWithDebug false) 0 0 fallbackJob
    fallbackPost [⟨"❤", none, 1, some "❤", none⟩] ⟨"❤", none, 1, some "❤", none⟩
    rfl rfl rfl (by decide)

end MiniFedi

namespace MiniFedi

/-- C7 (counterexample): the colon-free key `heart` exactly matches a
custom-emoji name in the host metadata, yet because the alias table maps
`heart` to the literal glyph, the alias tier wins and the descriptor is
emitted as a unicode glyph with no URL — refuting the unconditional
reclassification claim. -/
theorem alias_unicode_overrides_colonless_meta_key_cex :
    containsChar "heart" ':' = false ∧
    resolveEmojiUrlFromMeta aliasMeta (normalizeName "heart") =
      some "https://o.example/files/heart.png" ∧
    processKey emptyWorld (some aliasMeta) emptyNote "origin.example" false "heart" 1 =
      (some ⟨"❤", none, 1, some "❤", none⟩,
       { Counters.zero with alias_hits := 1, unicode_pass := 1 }, []) := ⟨rfl, rfl, rfl⟩

/-- C7 (amended): when the host metadata is loaded, the alias table has no
entry for the key, and the key is colon-free with a metadata emoji URL `u`
for its normalized name, the key is reclassified custom and the emitted
descriptor carries exactly that metadata URL (and no glyph `char`). -/
theorem colonless_meta_key_is_custom (w : World) (meta : Meta) (obj : NoteObj)
    (jobHost : String) (force : Bool) (rawKey : String) (count : Nat) (u : String)
    (hcolon : containsChar rawKey ':' = false)
    (halias : resolveAliasFromMeta meta (normalizeName rawKey) = none)
    (hmeta : resolveEmojiUrlFromMeta meta (normalizeName rawKey) = some u)
    (hcount : ¬(count = 0 ∧ force = false)) :
    (processKey w (some meta) obj jobHost force rawKey count).1 =
      some ⟨normalizeName rawKey, some u, count, none,
            itemHostOf UrlFrom.viaMeta (some u) none jobHost⟩ := by
  have hidem := normalizeName_idem_of_no_colon hcolon
  have hparse : parseMkReactionKey rawKey =
      { kind := RKind.unicode, name := normalizeName rawKey, host := none } := by
    unfold parseMkReactionKey
    rw [if_pos hcolon]
  unfold processKey
  rw [if_neg hcount]
  dsimp only
  rw [hparse]
  simp only [Option.some_bind]
  rw [halias]
  rw [hmeta]
  simp only [Option.isSome_some]
  rw [if_pos (⟨trivial, trivial⟩ : True ∧ True)]
  rw [if_neg (by simp)]
  unfold processCustom
  dsimp only
  rw [hidem]
  unfold resolveCustomUrl
  simp only [Option.some_bind]
  rw [hmeta]

/-- C7 (witness): without the alias entry, the colon-free key `heart`
resolves to the metadata URL as a custom descriptor. -/
theorem colonless_meta_key_is_custom_witness :
    (processKey emptyWorld (some plainMeta) emptyNote "origin.example" false "heart" 1).1 =
      some ⟨"heart", some "https://o.example/files/heart.png", 1, none, some "o.example"⟩ :=
  colonless_meta_key_is_custom emptyWorld plainMeta emptyNote "origin.example" false
    "heart" 1 "https://o.example/files/heart.png" rfl rfl rfl (by simp)

/-- C8: a post is classified as an enrichment candidate iff its origin URI
(the reblog URI when truthy, else its own URI) passes the
`/^https?:\/\//i` test and yields a note id from the `/notes/<id>` path
shape; the Job slice keeps exactly the first `merge_limit` candidates
(default 6); and a post without a Job passes through the runner
untouched. -/
theorem candidate_selection_iff_and_truncation :
    (∀ st : Post, (∃ a h n, classifyPost st = .cand a h n) ↔
      (∃ u, jsOr st.reblogUri st.uri = some u ∧ isHttpUri u = true ∧
        (extractMisskeyNoteIdFromApUri u).isSome = true)) ∧
    (∀ (k : Nat) (l : List (Post × Option JobInfo)),
      (limitJobs k l).filterMap (fun pj => pj.2) = (l.filterMap (fun pj => pj.2)).take k) ∧
    mergeLimitParam none = 6 ∧
    (∀ (w : World) (p : Params) (sched : Nat → Nat × Nat) (st : Post)
       (r : List (Post × Option JobInfo)) (k : Nat),
      (runJobs w p sched ((st, none) :: r) k).posts = st :: (runJobs w p sched r k).posts) :=
  ⟨candidate_iff, limitJobs_take, rfl, fun _ _ _ _ _ _ => rfl⟩

/-- C9 (code bug): a post whose origin URI is `http://` passes the
`/^https?:\/\//i` candidate test yet has an empty host, so the unguarded
`new URL(apUri)` at the top of the candidate loop throws and the whole
handler fails instead of responding 200 with the page — although the
sibling parse inside `extractMisskeyNoteIdFromApUri` guards the very same
operation with `try/catch`, and the spec requires enrichment never to fail
the page.  The last conjunct records that the model keeps WHATWG's
slash-skipping leniency: a URI such as `http:///x` parses with host `x`
and does not crash. -/
theorem handler_crashes_on_unparseable_http_uri :
    handleHome emptyWorld (paramsWithDebug false) [crashPost] none 0 (fun _ => (0, 0)) 1 =
      .error () ∧
    isHttpUri "http://" = true ∧
    classifyPost crashPost = .crash ∧
    parseHttpUrl "http:///x" = some ("x", "/") := ⟨rfl, rfl, rfl, rfl⟩

/-- C10: with `merge=0` the enrichment phase is skipped entirely — the
handler performs no origin-platform lookup (empty event trace), returns
the timeline items unchanged together with `next_max_id`, and reports
`tried=0; merged=0; errors=0`. -/
theorem merge_off_skips_enrichment (w : World) (p : Params) (statuses : List Post)
    (linkNext : Option String) (eP : Nat) (sched : Nat → Nat × Nat) (ms : Nat)
    (hm : p.merge = false) :
    handleHome w p statuses linkNext eP sched ms =
      .ok ⟨200, statuses, jsOr linkNext ((statuses.getLast?).map (fun st => st.id)),
           "tried=0; merged=0; errors=0", ms, Counters.zero, []⟩ ∧
    mergeParam (some "0") = false :=
  ⟨merge_off_eval w p statuses linkNext eP sched ms hm, by decide⟩

/-- C10 (witness): a concrete `merge=0` request returns its single item
unchanged with the zero summary and no events. -/
theorem merge_off_skips_enrichment_witness :
    handleHome emptyWorld mergeOffParams [budgetZeroPost] none 0 (fun _ => (0, 0)) 3 =
      .ok ⟨200, [budgetZeroPost], some "1", "tried=0; merged=0; errors=0", 3,
           Counters.zero, []⟩ :=
  (merge_off_skips_enrichment emptyWorld mergeOffParams [budgetZeroPost] none 0
    (fun _ => (0, 0)) 3 rfl).1

end MiniFedi
